import Mathlib

/-!
Verification development for the `query-calls` analytics route of the
prism-mycar repository (src/src/app/api/openai/query-calls/route.ts).

JavaScript strings are modelled as `List Char` (`JStr`), JavaScript
numbers as `Rat` (exact rational arithmetic; all values appearing in the
claims are exactly representable IEEE doubles on which double arithmetic
agrees with rational arithmetic), and the heterogeneous `any`-typed
values stored in call records as the JSON value type `JVal`.
-/

namespace PrismMyCar

/-- JavaScript string, modelled as its list of UTF-16 code points. -/
abbrev JStr := List Char

/-- Coercion from Lean string literals into the `JStr` model. -/
def js (s : String) : JStr := s.data

/- ### Completion invoker (route.ts lines 600-606, 1527-1562, 1732-1740) -/

/-- Configuration record mirroring the object literal `RATE_LIMIT_CONFIG`
at route.ts lines 600-606. -/
structure RateLimitConfig where
  maxRetries : Nat
  baseDelay : Nat
  maxDelay : Nat
  backoffMultiplier : Nat

/-- Source constant `RATE_LIMIT_CONFIG = { maxRetries: 5, baseDelay: 1000,
maxDelay: 30000, backoffMultiplier: 2 }` (route.ts lines 600-606). -/
def RATE_LIMIT_CONFIG : RateLimitConfig :=
  ⟨5, 1000, 30000, 2⟩

/-- Backoff delay computed at route.ts lines 1543-1546:
`Math.min(baseDelay * backoffMultiplier ** retryCount, maxDelay)`. -/
def backoffDelay (retryCount : Nat) : Nat :=
  min (RATE_LIMIT_CONFIG.baseDelay * RATE_LIMIT_CONFIG.backoffMultiplier ^ retryCount)
    RATE_LIMIT_CONFIG.maxDelay

/-- Outcome of one `openai.chat.completions.create` attempt, as observed by
the `catch` clause of `callOpenAIWithRetry`: either the call succeeds, or it
throws an error carrying an HTTP `status` and a flag telling whether its
message contains `context_length_exceeded`. -/
inductive ApiOutcome where
  | success
  | failure (status : Nat) (contextLength : Bool)
  deriving DecidableEq

/-- Final result of the retry loop: a successful response, a rethrown
upstream error, the synthesized `Query too complex for available models`
error (route.ts line 1557), or exhaustion of the modelled outcome stream
(an artifact of modelling the external service as a finite stream; never
reached in the theorems below, which always provide enough outcomes). -/
inductive RetryResult where
  | ok
  | thrown (status : Nat) (contextLength : Bool)
  | complexityError
  | noMoreOutcomes
  deriving DecidableEq

/-- Observable trace of `callOpenAIWithRetry`: the list of sleep delays (ms)
in order, the number of completion attempts made, and the final result. -/
structure RetryTrace where
  delays : List Nat
  attempts : Nat
  result : RetryResult
  deriving DecidableEq

/-- Shallow embedding of `callOpenAIWithRetry` (route.ts lines 1527-1562).
The external completion service is modelled as a finite stream of outcomes,
one consumed per attempt. Mirrors the source control flow exactly: on HTTP
429 with `retryCount < RATE_LIMIT_CONFIG.maxRetries` it sleeps
`backoffDelay retryCount` and recurses with `retryCount + 1`; on HTTP 400
whose message contains `context_length_exceeded` it downgrades from model
`gpt-4o` to `gpt-4o-mini` (same retryCount) or, for any other model, throws
the `Query too complex` error; every other error is rethrown at once. -/
def callOpenAIWithRetry (model : String) (retryCount : Nat) :
    List ApiOutcome → RetryTrace
  | [] => ⟨[], 0, .noMoreOutcomes⟩
  | outcome :: rest =>
    match outcome with
    | .success => ⟨[], 1, .ok⟩
    | .failure status ctx =>
      if status = 429 ∧ retryCount < RATE_LIMIT_CONFIG.maxRetries then
        let t := callOpenAIWithRetry model (retryCount + 1) rest
        ⟨backoffDelay retryCount :: t.delays, t.attempts + 1, t.result⟩
      else if status = 400 ∧ ctx = true then
        if model = "gpt-4o" then
          let t := callOpenAIWithRetry "gpt-4o-mini" retryCount rest
          ⟨t.delays, t.attempts + 1, t.result⟩
        else ⟨[], 1, .complexityError⟩
      else ⟨[], 1, .thrown status ctx⟩

/-- The POST handler's single completion invocation (route.ts line 1738):
`callOpenAIWithRetry(messages)` with the declaration's default parameters
`model = 'gpt-4o-mini'` and `retryCount = 0` (route.ts lines 1527-1530). -/
def POST_invokeCompletion (outcomes : List ApiOutcome) : RetryTrace :=
  callOpenAIWithRetry "gpt-4o-mini" 0 outcomes

/-- Sleeps only happen while `retryCount < maxRetries` and each sleep
increments `retryCount`, so at most `maxRetries - retryCount` sleeps occur
from any starting state, whatever the model and outcome stream. -/
theorem delays_length_le (outcomes : List ApiOutcome) :
    ∀ (model : String) (n : Nat),
      (callOpenAIWithRetry model n outcomes).delays.length ≤
        RATE_LIMIT_CONFIG.maxRetries - n := by
  induction outcomes with
  | nil => intro model n; simp [callOpenAIWithRetry]
  | cons outcome rest ih =>
    intro model n
    match outcome with
    | .success => simp [callOpenAIWithRetry]
    | .failure status ctx =>
      by_cases h1 : status = 429 ∧ n < RATE_LIMIT_CONFIG.maxRetries
      · have hn : n < RATE_LIMIT_CONFIG.maxRetries := h1.2
        have := ih model (n + 1)
        simp only [callOpenAIWithRetry, if_pos h1, List.length_cons]
        omega
      · by_cases h2 : status = 400 ∧ ctx = true
        · by_cases h3 : model = "gpt-4o"
          · have := ih "gpt-4o-mini" n
            simp only [callOpenAIWithRetry, if_neg h1, if_pos h2, if_pos h3]
            exact this
          · simp [callOpenAIWithRetry, if_neg h1, if_pos h2, if_neg h3]
        · simp [callOpenAIWithRetry, if_neg h1, if_neg h2]

/-- C3: the retry loop is bounded. On a stream of repeated HTTP 429 errors
the handler-invoked loop sleeps exactly [1000, 2000, 4000, 8000, 16000] ms
(backoffDelay 0..4, each at most the 30000 ms cap), makes 6 attempts, and
rethrows the 429; and on every outcome stream at most 5 retries (sleeps)
occur, so a 6th retry never happens. -/
theorem C3_backoff_bounded :
    (∀ rest : List ApiOutcome,
      callOpenAIWithRetry "gpt-4o-mini" 0
        (.failure 429 false :: .failure 429 false :: .failure 429 false ::
          .failure 429 false :: .failure 429 false :: .failure 429 false :: rest)
        = ⟨[1000, 2000, 4000, 8000, 16000], 6, .thrown 429 false⟩) ∧
    (List.map backoffDelay (List.range 5) = [1000, 2000, 4000, 8000, 16000]) ∧
    ((List.map backoffDelay (List.range 5)).all
        (fun d => decide (d ≤ RATE_LIMIT_CONFIG.maxDelay)) = true) ∧
    (∀ outcomes : List ApiOutcome,
      (POST_invokeCompletion outcomes).delays.length ≤ 5) := by
  refine ⟨fun rest => ?_, by decide, by decide, fun outcomes => ?_⟩
  · rfl
  · simpa [POST_invokeCompletion, RATE_LIMIT_CONFIG] using
      delays_length_le outcomes "gpt-4o-mini" 0

/-- C8: every failure other than HTTP 429 and the HTTP 400 context-length
error is propagated immediately on the first attempt, with no sleep and no
further completion call. -/
theorem C8_nonretryable_propagates_immediately (model : String) (n : Nat)
    (status : Nat) (ctx : Bool) (rest : List ApiOutcome)
    (h429 : status ≠ 429) (h400 : ¬(status = 400 ∧ ctx = true)) :
    callOpenAIWithRetry model n (.failure status ctx :: rest)
      = ⟨[], 1, .thrown status ctx⟩ := by
  have h1 : ¬(status = 429 ∧ n < RATE_LIMIT_CONFIG.maxRetries) := by
    intro h; exact h429 h.1
  simp [callOpenAIWithRetry, if_neg h1, if_neg h400]

/-- Witness for C8 at a concrete input: an HTTP 401 auth failure is
rethrown immediately by the handler-invoked loop, with no sleeps and a
single attempt. -/
theorem C8_witness :
    callOpenAIWithRetry "gpt-4o-mini" 0 (.failure 401 false :: []) =
      ⟨[], 1, .thrown 401 false⟩ :=
  C8_nonretryable_propagates_immediately "gpt-4o-mini" 0 401 false []
    (by decide) (by decide)

/-- C10: the POST handler invokes the completion loop with the default
model `gpt-4o-mini`, so an HTTP 400 context-length error surfaces directly
as the `Query too complex for available models` error on the first attempt;
the downgrade branch fires only when the model equals `gpt-4o`, hence it is
unreachable from the handler. -/
theorem C10_no_downgrade_from_handler :
    (∀ rest : List ApiOutcome,
      POST_invokeCompletion (.failure 400 true :: rest)
        = ⟨[], 1, .complexityError⟩) ∧
    (∀ (model : String) (n : Nat) (rest : List ApiOutcome),
      model ≠ "gpt-4o" →
        callOpenAIWithRetry model n (.failure 400 true :: rest)
          = ⟨[], 1, .complexityError⟩) := by
  constructor
  · intro rest
    rfl
  · intro model n rest hm
    have h1 : ¬((400 : Nat) = 429 ∧ n < RATE_LIMIT_CONFIG.maxRetries) := by
      intro h; exact absurd h.1 (by decide)
    simp [callOpenAIWithRetry, if_neg h1, hm]

/-- Witness for C10: instantiating the universally quantified part at the
concrete model `gpt-4o-mini` and an empty tail. -/
theorem C10_witness :
    callOpenAIWithRetry "gpt-4o-mini" 3 (.failure 400 true :: []) =
      ⟨[], 1, .complexityError⟩ :=
  C10_no_downgrade_from_handler.2 "gpt-4o-mini" 3 [] (by decide)

/- ### Context assembler final truncation step (route.ts lines 1517-1523) -/

/-- Literal marker appended on truncation (route.ts line 1520). -/
def truncationMarker : JStr := js "\n\n[Data truncated due to size limits]"

/-- Shallow embedding of the final step of `prepareContextForQuery`
(route.ts lines 1517-1523), applied to the assembled context string:
`estimatedTokens = context.length / 4; if (estimatedTokens > maxTokens)
context = context.substring(0, maxTokens * 4) + marker`. The division is
exact rational division, as in JavaScript. -/
def prepareContextTruncate (context : JStr) (maxTokens : Nat) : JStr :=
  if ((context.length : Rat) / 4 > (maxTokens : Rat)) then
    context.take (maxTokens * 4) ++ truncationMarker
  else context

/-- Guard equivalence: `context.length / 4 > maxTokens` over the rationals
holds exactly when `context.length > maxTokens * 4` over the naturals. -/
theorem truncate_guard_iff (len maxTokens : Nat) :
    ((len : Rat) / 4 > (maxTokens : Rat)) ↔ len > maxTokens * 4 := by
  rw [gt_iff_lt, lt_div_iff₀ (by norm_num : (0 : Rat) < 4)]
  rw [show ((maxTokens : Rat) * 4) = ((maxTokens * 4 : Nat) : Rat) by push_cast; ring]
  exact_mod_cast Nat.cast_lt (α := Rat)

/-- C2: if the assembled context exceeds `maxTokens * 4` characters, the
returned context is its first `maxTokens * 4` characters followed by the
literal truncation marker — so it ends with the marker and has length
exactly `maxTokens * 4 + truncationMarker.length`; otherwise the context is
returned unchanged. -/
theorem C2_truncation (context : JStr) (maxTokens : Nat) :
    (context.length > maxTokens * 4 →
      prepareContextTruncate context maxTokens
          = context.take (maxTokens * 4) ++ truncationMarker ∧
        (prepareContextTruncate context maxTokens).length
          = maxTokens * 4 + truncationMarker.length ∧
        List.IsSuffix truncationMarker (prepareContextTruncate context maxTokens)) ∧
    (context.length ≤ maxTokens * 4 →
      prepareContextTruncate context maxTokens = context) := by
  constructor
  · intro h
    have hg : ((context.length : Rat) / 4 > (maxTokens : Rat)) :=
      (truncate_guard_iff context.length maxTokens).mpr h
    have heq : prepareContextTruncate context maxTokens
        = context.take (maxTokens * 4) ++ truncationMarker := by
      simp [prepareContextTruncate, if_pos hg]
    refine ⟨heq, ?_, ?_⟩
    · rw [heq, List.length_append, List.length_take]
      congr 1
      omega
    · rw [heq]
      exact List.suffix_append _ _
  · intro h
    have hg : ¬((context.length : Rat) / 4 > (maxTokens : Rat)) := by
      rw [truncate_guard_iff]; omega
    simp [prepareContextTruncate, if_neg hg]

/-- Witness for C2 at a concrete input: a 9-character context with a
2-token budget is truncated to 8 characters plus the marker, and a
9-character context with a 3-token budget is returned unchanged. -/
theorem C2_witness :
    prepareContextTruncate (js "aaaaaaaaa") 2
        = js "aaaaaaaa" ++ truncationMarker ∧
      prepareContextTruncate (js "aaaaaaaaa") 3 = js "aaaaaaaaa" := by
  constructor
  · exact ((C2_truncation (js "aaaaaaaaa") 2).1 (by decide)).1
  · exact (C2_truncation (js "aaaaaaaaa") 3).2 (by decide)

/- ### JSON value model and field normalizer (route.ts lines 779-813) -/

/-- JSON/JavaScript value, covering the `any`-typed stored representations
of call-record fields. Numbers are modelled as exact rationals. -/
inductive JVal where
  | jnum (q : Rat)
  | jstr (s : JStr)
  | jbool (b : Bool)
  | jnull
  | jarr (elems : List JVal)
  | jobj (fields : List (JStr × JVal))

/-- JavaScript truthiness test: `!value` is true exactly on the falsy
values 0, the empty string, `false`, and `null`/`undefined` (both modelled
by `jnull`; `NaN` is not representable in the rational model). -/
def isFalsy : JVal → Bool
  | .jnum q => decide (q = 0)
  | .jstr [] => true
  | .jstr (_ :: _) => false
  | .jbool b => !b
  | .jnull => true
  | .jarr _ => false
  | .jobj _ => false

/-- Character class of JSON/JavaScript ASCII whitespace. -/
def isWsChar (c : Char) : Bool :=
  c = ' ' ∨ c = '\t' ∨ c = '\n' ∨ c = '\r'

/-- Drop leading whitespace. -/
def skipWs (cs : JStr) : JStr := cs.dropWhile isWsChar

/-- Split a string into its leading run of decimal digits and the rest. -/
def readDigits (cs : JStr) : JStr × JStr :=
  (cs.takeWhile Char.isDigit, cs.dropWhile Char.isDigit)

/-- Numeric value of a digit run. -/
def digitsToNat (ds : JStr) : Nat :=
  ds.foldl (fun acc c => acc * 10 + (c.toNat - '0'.toNat)) 0

/-- Parse the body of an unsigned JSON number (digits with an optional
fraction; exponents are not modelled, no claim depends on them). -/
def parseNumBody (cs : JStr) : Option (Rat × JStr) :=
  let p := readDigits cs
  if p.1.isEmpty then none
  else
    match p.2 with
    | '.' :: rest2 =>
      let q := readDigits rest2
      if q.1.isEmpty then none
      else some ((digitsToNat p.1 : Rat) + (digitsToNat q.1 : Rat) / (10 : Rat) ^ q.1.length, q.2)
    | _ => some ((digitsToNat p.1 : Rat), p.2)

/-- Parse a JSON string body after the opening quote, up to the closing
quote. Escape sequences are not modelled (a backslash fails the parse); no
claim input contains one. -/
def parseStrBody : JStr → Option (JStr × JStr)
  | [] => none
  | c :: rest =>
    if c = '"' then some ([], rest)
    else if c = '\\' then none
    else
      match parseStrBody rest with
      | some (s, r) => some (c :: s, r)
      | none => none

/-- Consume an expected literal contents, or fail. -/
def dropLit : JStr → JStr → Option JStr
  | [], cs => some cs
  | _ :: _, [] => none
  | l :: ls, c :: cs => if c = l then dropLit ls cs else none

/-- Insert a key/value pair into an object's field list with JavaScript
object semantics: a duplicate key keeps its original position and takes the
later value. -/
def objInsert (fields : List (JStr × JVal)) (k : JStr) (v : JVal) :
    List (JStr × JVal) :=
  if fields.any (fun p => p.1 == k) then
    fields.map (fun p => if p.1 == k then (k, v) else p)
  else fields ++ [(k, v)]

mutual

/-- Fuel-bounded recursive-descent parser for JSON values, modelling
`JSON.parse`. Returns the parsed value and the unconsumed rest. -/
def parseJVal : Nat → JStr → Option (JVal × JStr)
  | 0, _ => none
  | fuel + 1, cs =>
    match skipWs cs with
    | [] => none
    | c :: rest =>
      if c = '"' then
        match parseStrBody rest with
        | some (s, rest2) => some (.jstr s, rest2)
        | none => none
      else if c = '{' then parseObjStart fuel rest
      else if c = '[' then parseArrStart fuel rest
      else if c = '-' then
        match parseNumBody rest with
        | some (q, rest2) => some (.jnum (-q), rest2)
        | none => none
      else if c.isDigit then
        match parseNumBody (c :: rest) with
        | some (q, rest2) => some (.jnum q, rest2)
        | none => none
      else if c = 't' then
        match dropLit (js "rue") rest with
        | some rest2 => some (.jbool true, rest2)
        | none => none
      else if c = 'f' then
        match dropLit (js "alse") rest with
        | some rest2 => some (.jbool false, rest2)
        | none => none
      else if c = 'n' then
        match dropLit (js "ull") rest with
        | some rest2 => some (.jnull, rest2)
        | none => none
      else none

/-- Parse an object immediately after its opening brace. -/
def parseObjStart : Nat → JStr → Option (JVal × JStr)
  | 0, _ => none
  | fuel + 1, cs =>
    match skipWs cs with
    | '}' :: rest => some (.jobj [], rest)
    | _ =>
      match parseObjField fuel cs with
      | some (k, v, rest) => parseObjLoop fuel rest (objInsert [] k v)
      | none => none

/-- Parse one `"key": value` field. -/
def parseObjField : Nat → JStr → Option (JStr × JVal × JStr)
  | 0, _ => none
  | fuel + 1, cs =>
    match skipWs cs with
    | '"' :: rest =>
      match parseStrBody rest with
      | some (k, rest2) =>
        match skipWs rest2 with
        | ':' :: rest3 =>
          match parseJVal fuel rest3 with
          | some (v, rest4) => some (k, v, rest4)
          | none => none
        | _ => none
      | none => none
    | _ => none

/-- Parse the continuation of an object after at least one field: either a
comma and another field, or the closing brace. -/
def parseObjLoop : Nat → JStr → List (JStr × JVal) → Option (JVal × JStr)
  | 0, _, _ => none
  | fuel + 1, cs, acc =>
    match skipWs cs with
    | '}' :: rest => some (.jobj acc, rest)
    | ',' :: rest =>
      match parseObjField fuel rest with
      | some (k, v, rest2) => parseObjLoop fuel rest2 (objInsert acc k v)
      | none => none
    | _ => none

/-- Parse an array immediately after its opening bracket. -/
def parseArrStart : Nat → JStr → Option (JVal × JStr)
  | 0, _ => none
  | fuel + 1, cs =>
    match skipWs cs with
    | ']' :: rest => some (.jarr [], rest)
    | _ =>
      match parseJVal fuel cs with
      | some (v, rest) => parseArrLoop fuel rest [v]
      | none => none

/-- Parse the continuation of an array after at least one element. -/
def parseArrLoop : Nat → JStr → List JVal → Option (JVal × JStr)
  | 0, _, _ => none
  | fuel + 1, cs, acc =>
    match skipWs cs with
    | ']' :: rest => some (.jarr acc, rest)
    | ',' :: rest =>
      match parseJVal fuel rest with
      | some (v, rest2) => parseArrLoop fuel rest2 (acc ++ [v])
      | none => none
    | _ => none

end

/-- Top-level `JSON.parse`: the whole input must be one JSON value followed
only by whitespace, otherwise the parse throws (`none`). -/
def jsonParseTop (cs : JStr) : Option JVal :=
  match parseJVal (2 * cs.length + 4) cs with
  | some (v, rest) => if (skipWs rest).isEmpty then some v else none
  | none => none

/-- JavaScript `parseFloat` on an optionally signed decimal prefix; `none`
models `NaN` (exponents and `Infinity` are not modelled). -/
def jsParseFloatBody (cs : JStr) : Option Rat :=
  let p := readDigits cs
  match p.2 with
  | '.' :: rest2 =>
    let q := readDigits rest2
    if p.1.isEmpty ∧ q.1.isEmpty then none
    else some ((digitsToNat p.1 : Rat) + (digitsToNat q.1 : Rat) / (10 : Rat) ^ q.1.length)
  | _ => if p.1.isEmpty then none else some (digitsToNat p.1 : Rat)

/-- JavaScript `parseFloat`, including leading-whitespace skipping and an
optional sign. -/
def jsParseFloat (cs : JStr) : Option Rat :=
  match skipWs cs with
  | '-' :: rest => (jsParseFloatBody rest).map (fun q => -q)
  | '+' :: rest => jsParseFloatBody rest
  | rest => jsParseFloatBody rest

/-- Lookup of a JavaScript object property by name: the first field whose
key matches. -/
def lookupField : List (JStr × JVal) → JStr → Option JVal
  | [], _ => none
  | p :: rest, k => if p.1 == k then some p.2 else lookupField rest k

/-- Body of `extractNumericValue` after `JSON.parse` or the object
passthrough (route.ts lines 783-805): destructure
`{ seconds, minutes = 0 }` and validate. Destructuring `null` throws a
TypeError, modelled by `none`; any other non-object destructures to
`seconds = undefined` and falls into the `return 0` validation branch. -/
def durationFromParsed : JVal → Option Rat
  | .jnull => none
  | .jobj fields =>
    let seconds? := lookupField fields (js "seconds")
    let minutes := (lookupField fields (js "minutes")).getD (.jnum 0)
    some
      (match seconds? with
      | some (.jnum s) =>
        if s < 0 then 0
        else
          match minutes with
          | .jnum m => if m < 0 then 0 else m * 60 + s
          | _ => 0
      | _ => 0)
  | _ => some 0

/-- Shallow embedding of `extractNumericValue` (route.ts lines 779-813):
falsy values normalize to 0; strings are `JSON.parse`d inside a `try`
whose `catch` falls back to `parseFloat`; objects are destructured
directly; raw numbers are returned unchanged; anything else gives 0. -/
def extractNumericValue (value : JVal) : Rat :=
  if isFalsy value then 0
  else
    match value with
    | .jstr s =>
      match jsonParseTop s with
      | some pd =>
        match durationFromParsed pd with
        | some r => r
        | none =>
          match jsParseFloat s with
          | some q => q
          | none => 0
      | none =>
        match jsParseFloat s with
        | some q => q
        | none => 0
    | .jobj fields => (durationFromParsed (.jobj fields)).getD 0
    | .jarr elems => (durationFromParsed (.jarr elems)).getD 0
    | .jnum q => q
    | .jbool _ => 0
    | .jnull => 0

/-- C1 counterexample: the raw number -5 is passed through unchanged by
`extractNumericValue` (route.ts line 790 returns a `number` input as-is),
so the result is -5, not the claimed 0, and it is negative; and the
malformed strings `12abc` and `-3x` are not normalized to 0 either — the
`catch` at route.ts lines 806-810 falls back to `parseFloat`, yielding 12
and the negative -3. -/
theorem C1_counterexample :
    extractNumericValue (.jnum (-5)) = -5 ∧
      extractNumericValue (.jnum (-5)) ≠ 0 ∧
      extractNumericValue (.jnum (-5)) < 0 ∧
      extractNumericValue (.jstr (js "12abc")) = 12 ∧
      extractNumericValue (.jstr (js "12abc")) ≠ 0 ∧
      extractNumericValue (.jstr (js "-3x")) = -3 ∧
      extractNumericValue (.jstr (js "-3x")) < 0 := by
  have h1 : extractNumericValue (.jstr (js "12abc")) = ((12 : Nat) : Rat) := rfl
  have h2 : extractNumericValue (.jstr (js "-3x")) = -((3 : Nat) : Rat) := rfl
  refine ⟨?_, ?_, ?_, ?_, ?_, ?_, ?_⟩
  · norm_num [extractNumericValue, isFalsy]
  · norm_num [extractNumericValue, isFalsy]
  · norm_num [extractNumericValue, isFalsy]
  · rw [h1]; norm_num
  · rw [h1]; norm_num
  · rw [h2]; norm_num
  · rw [h2]; norm_num

/-- Well-formed components destructure and validate to
`minutes * 60 + seconds` (route.ts lines 795-805). -/
theorem durationFromParsed_wellformed (m s : Rat) (hm : 0 ≤ m) (hs : 0 ≤ s) :
    durationFromParsed (.jobj [(js "minutes", .jnum m), (js "seconds", .jnum s)])
      = some (m * 60 + s) := by
  have hsec : lookupField [(js "minutes", .jnum m), (js "seconds", .jnum s)]
      (js "seconds") = some (.jnum s) := rfl
  have hmin : lookupField [(js "minutes", .jnum m), (js "seconds", .jnum s)]
      (js "minutes") = some (.jnum m) := rfl
  simp only [durationFromParsed, hsec, hmin, Option.getD_some]
  rw [if_neg (not_lt.mpr hs), if_neg (not_lt.mpr hm)]

/-- A negative seconds component validates to 0 (route.ts line 797). -/
theorem durationFromParsed_neg_seconds (m s : Rat) (hs : s < 0) :
    durationFromParsed (.jobj [(js "minutes", .jnum m), (js "seconds", .jnum s)])
      = some 0 := by
  have hsec : lookupField [(js "minutes", .jnum m), (js "seconds", .jnum s)]
      (js "seconds") = some (.jnum s) := rfl
  have hmin : lookupField [(js "minutes", .jnum m), (js "seconds", .jnum s)]
      (js "minutes") = some (.jnum m) := rfl
  simp only [durationFromParsed, hsec, hmin, Option.getD_some]
  rw [if_pos hs]

/-- A negative minutes component also validates to 0 (route.ts line 801). -/
theorem durationFromParsed_neg_minutes (m s : Rat) (hm : m < 0) :
    durationFromParsed (.jobj [(js "minutes", .jnum m), (js "seconds", .jnum s)])
      = some 0 := by
  by_cases hs : s < 0
  · exact durationFromParsed_neg_seconds m s hs
  · have hsec : lookupField [(js "minutes", .jnum m), (js "seconds", .jnum s)]
        (js "seconds") = some (.jnum s) := rfl
    have hmin : lookupField [(js "minutes", .jnum m), (js "seconds", .jnum s)]
        (js "minutes") = some (.jnum m) := rfl
    simp only [durationFromParsed, hsec, hmin, Option.getD_some]
    rw [if_neg hs, if_pos hm]

/-- A string `JSON.parse` accepts behaves as its parsed value does under
destructure-and-validate. -/
theorem extractNumericValue_jstr_parsed (b : JStr) (pd : JVal) (r : Rat)
    (hp : jsonParseTop b = some pd) (hd : durationFromParsed pd = some r) :
    extractNumericValue (.jstr b) = r := by
  have hne : b ≠ [] := by
    intro h
    rw [h] at hp
    exact Option.noConfusion hp
  match b, hne with
  | c :: cs, _ =>
    show extractNumericValue (.jstr (c :: cs)) = r
    simp [extractNumericValue, isFalsy, hp, hd]

/-- A string `JSON.parse` rejects falls back to `parseFloat` of its
leading decimal prefix, 0 when there is none (route.ts lines 806-810). -/
theorem extractNumericValue_jstr_unparsed (b : JStr)
    (hb : jsonParseTop b = none) :
    extractNumericValue (.jstr b) = (jsParseFloat b).getD 0 := by
  cases b with
  | nil => rfl
  | cons c cs =>
    cases hq : jsParseFloat (c :: cs) with
    | none => simp [extractNumericValue, isFalsy, hb, hq]
    | some q => simp [extractNumericValue, isFalsy, hb, hq]

/-- C1 as amended: `extractNumericValue` never throws (it is a total
function); a well-formed duration object with components `m, s ≥ 0`, and
any string that `JSON.parse`s to that object, normalize to `m * 60 + s`
seconds; an object (or any string parsing to an object) with a negative
minutes or seconds component returns 0; but a raw number input is
returned unchanged (so -5 returns -5), and a string `JSON.parse` rejects
falls back to `parseFloat` of its leading decimal prefix (0 when there is
none), so malformed strings can return nonzero and even negative values. -/
theorem C1_amended (m s : Rat) (str : JStr)
    (hm : 0 ≤ m) (hs : 0 ≤ s)
    (hp : jsonParseTop str
      = some (.jobj [(js "minutes", .jnum m), (js "seconds", .jnum s)])) :
    extractNumericValue (.jobj [(js "minutes", .jnum m), (js "seconds", .jnum s)])
        = m * 60 + s ∧
      extractNumericValue (.jstr str) = m * 60 + s ∧
      (∀ q : Rat, extractNumericValue (.jnum q) = q) ∧
      (∀ m' s' : Rat, s' < 0 →
        extractNumericValue
          (.jobj [(js "minutes", .jnum m'), (js "seconds", .jnum s')]) = 0) ∧
      (∀ m' s' : Rat, m' < 0 →
        extractNumericValue
          (.jobj [(js "minutes", .jnum m'), (js "seconds", .jnum s')]) = 0) ∧
      (∀ (m' s' : Rat) (b : JStr), s' < 0 →
        jsonParseTop b
            = some (.jobj [(js "minutes", .jnum m'), (js "seconds", .jnum s')]) →
        extractNumericValue (.jstr b) = 0) ∧
      (∀ b : JStr, jsonParseTop b = none →
        extractNumericValue (.jstr b) = (jsParseFloat b).getD 0) := by
  refine ⟨?_, ?_, ?_, ?_, ?_, ?_, ?_⟩
  · simp [extractNumericValue, isFalsy, durationFromParsed_wellformed m s hm hs]
  · exact extractNumericValue_jstr_parsed str _ _ hp
      (durationFromParsed_wellformed m s hm hs)
  · intro q
    by_cases hq : q = 0
    · simp [extractNumericValue, isFalsy, hq]
    · simp [extractNumericValue, isFalsy, hq]
  · intro m' s' hneg
    simp [extractNumericValue, isFalsy, durationFromParsed_neg_seconds m' s' hneg]
  · intro m' s' hneg
    simp [extractNumericValue, isFalsy, durationFromParsed_neg_minutes m' s' hneg]
  · intro m' s' b hneg hb
    exact extractNumericValue_jstr_parsed b _ _ hb
      (durationFromParsed_neg_seconds m' s' hneg)
  · intro b hb
    exact extractNumericValue_jstr_unparsed b hb

/-- Witness for C1 as amended, at the spec's scenario input: the
string-encoded duration of 2 minutes 15 seconds normalizes to 135 seconds,
both as a JSON string and as an object; a negative seconds component
clamps to 0; and the malformed string `12abc` takes the `parseFloat`
fallback. -/
theorem C1_witness :
    extractNumericValue (.jstr (js "\x7b\"minutes\":2,\"seconds\":15\x7d")) = 135 ∧
      extractNumericValue
        (.jobj [(js "minutes", .jnum 2), (js "seconds", .jnum 15)]) = 135 ∧
      extractNumericValue
        (.jobj [(js "minutes", .jnum 2), (js "seconds", .jnum (-1))]) = 0 ∧
      extractNumericValue (.jstr (js "12abc")) = (jsParseFloat (js "12abc")).getD 0 := by
  have h := C1_amended 2 15 (js "\x7b\"minutes\":2,\"seconds\":15\x7d")
    (by norm_num) (by norm_num) (by rfl)
  refine ⟨?_, ?_, ?_, ?_⟩
  · rw [h.2.1]; norm_num
  · rw [h.1]; norm_num
  · exact h.2.2.2.1 2 (-1) (by norm_num)
  · exact h.2.2.2.2.2.2 (js "12abc") (by rfl)

/- ### Keyword expansion engine (route.ts lines 608-754) -/

/-- JavaScript `toLowerCase` (ASCII; no claim input is non-ASCII). -/
def toLowerJ (cs : JStr) : JStr := cs.map Char.toLower

/-- JavaScript `trim`: strip leading and trailing whitespace. -/
def jsTrim (cs : JStr) : JStr :=
  ((cs.dropWhile isWsChar).reverse.dropWhile isWsChar).reverse

/-- JavaScript `split(/\s+/)`: split on maximal whitespace runs, keeping
the empty boundary pieces the JavaScript regex split produces. Structural
recursion on fuel so that concrete inputs evaluate in the kernel; every
step consumes at least one character, so `length + 1` fuel suffices. -/
def splitWsAux : Nat → JStr → JStr → List JStr
  | 0, _, acc => [acc.reverse]
  | _ + 1, [], acc => [acc.reverse]
  | fuel + 1, c :: rest, acc =>
    if isWsChar c then acc.reverse :: splitWsAux fuel (rest.dropWhile isWsChar) []
    else splitWsAux fuel rest (c :: acc)

/-- Entry point for whitespace splitting. -/
def splitWs (cs : JStr) : List JStr := splitWsAux (cs.length + 1) cs []

/-- JavaScript `split(sep)` with a single-character separator, keeping
empty pieces. -/
def splitChar (sep : Char) : JStr → List JStr
  | [] => [[]]
  | c :: rest =>
    match splitChar sep rest with
    | [] => if c = sep then [[], []] else [[c]]
    | h :: t => if c = sep then [] :: h :: t else (c :: h) :: t

/-- JavaScript `Array.prototype.join(sep)`. -/
def joinSep (sep : JStr) : List JStr → JStr
  | [] => []
  | [x] => x
  | x :: xs => x ++ sep ++ joinSep sep xs

/-- JavaScript `slice(0, -n)`: drop the last `n` characters. -/
def sliceDrop (l : JStr) (n : Nat) : JStr := l.take (l.length - n)

/-- JavaScript `Set.add` on an insertion-ordered set represented as a
duplicate-free list: a present element is left alone, a new one appended. -/
def insertUniq (l : List JStr) (x : JStr) : List JStr :=
  if x ∈ l then l else l ++ [x]

/-- Add every element of `xs` into the insertion-ordered set `acc`. -/
def addAll (acc : List JStr) (xs : List JStr) : List JStr :=
  xs.foldl insertUniq acc

/-- Stable insertion into a sorted list: the new element goes after every
element that may come before it, so ties keep input order. -/
def insertBy {α : Type} (le : α → α → Bool) (x : α) : List α → List α
  | [] => [x]
  | y :: ys => if le y x then y :: insertBy le x ys else x :: y :: ys

/-- Stable sort by a comparator-derived order, modelling the stable
JavaScript `Array.prototype.sort`: for a consistent comparator it yields
the same result as any stable sort, and it reduces structurally. -/
def sortBy {α : Type} (le : α → α → Bool) (l : List α) : List α :=
  l.foldl (fun acc x => insertBy le x acc) []

/-- Membership is invariant under stable insertion. -/
theorem mem_insertBy {α : Type} (le : α → α → Bool) (a x : α) (l : List α) :
    a ∈ insertBy le x l ↔ a = x ∨ a ∈ l := by
  induction l with
  | nil => simp [insertBy]
  | cons y ys ih =>
    unfold insertBy
    split
    · simp only [List.mem_cons, ih]
      try tauto
    · simp only [List.mem_cons]
      try tauto

/-- Membership is invariant under stable sorting. -/
theorem mem_sortBy {α : Type} (le : α → α → Bool) (a : α) (l : List α) :
    a ∈ sortBy le l ↔ a ∈ l := by
  have key : ∀ (l acc : List α),
      (a ∈ l.foldl (fun acc x => insertBy le x acc) acc ↔ a ∈ acc ∨ a ∈ l) := by
    intro l
    induction l with
    | nil => intro acc; simp
    | cons x xs ih =>
      intro acc
      rw [List.foldl_cons, ih, mem_insertBy]
      simp only [List.mem_cons]
      tauto
  rw [sortBy, key]
  simp

/-- Source constant `CALL_CENTER_SYNONYMS` (route.ts lines 609-633). -/
def CALL_CENTER_SYNONYMS : List (JStr × List JStr) :=
  [ (js "angry", [js "mad", js "upset", js "furious", js "irritated", js "frustrated", js "annoyed", js "irate"]),
    (js "happy", [js "pleased", js "satisfied", js "content", js "glad", js "delighted", js "thrilled"]),
    (js "problem", [js "issue", js "trouble", js "difficulty", js "concern", js "matter", js "fault", js "defect"]),
    (js "refund", [js "return", js "reimbursement", js "money back", js "credit", js "chargeback"]),
    (js "cancel", [js "terminate", js "end", js "stop", js "discontinue", js "abort"]),
    (js "billing", [js "payment", js "invoice", js "charge", js "fee", js "cost", js "bill"]),
    (js "account", [js "profile", js "membership", js "subscription", js "login"]),
    (js "service", [js "support", js "help", js "assistance", js "repair", js "maintenance"]),
    (js "product", [js "item", js "merchandise", js "goods", js "part", js "component"]),
    (js "delivery", [js "shipping", js "shipment", js "sent", js "mail", js "transport"]),
    (js "urgent", [js "emergency", js "critical", js "important", js "rush", js "asap"]),
    (js "waiting", [js "hold", js "queue", js "pending", js "delay", js "wait"]),
    (js "alignment", [js "align", js "aligned", js "balancing", js "adjustment", js "calibration"]),
    (js "wheel", [js "tire", js "rim", js "hub", js "wheels"]),
    (js "brake", [js "brakes", js "braking", js "stop", js "stopping"]),
    (js "engine", [js "motor", js "powerplant", js "drivetrain"]),
    (js "oil", [js "lubricant", js "fluid", js "lube"]),
    (js "tire", [js "tyre", js "wheel", js "rubber"]),
    (js "repair", [js "fix", js "service", js "maintenance", js "work"]),
    (js "quote", [js "estimate", js "price", js "cost", js "pricing"]),
    (js "warranty", [js "guarantee", js "coverage", js "protection"]),
    (js "appointment", [js "booking", js "schedule", js "reservation", js "slot"]) ]

/-- Property access `CALL_CENTER_SYNONYMS[lower]`. -/
def lookupSynonyms : List (JStr × List JStr) → JStr → Option (List JStr)
  | [], _ => none
  | p :: rest, k => if p.1 = k then some p.2 else lookupSynonyms rest k

/-- Plural/singular toggles of `expandSingleWord` (route.ts lines 684-707). -/
def pluralStep (lower : JStr) (v : List JStr) : List JStr :=
  if List.IsSuffix (js "s") lower ∧ lower.length > 3 then
    let v := insertUniq v (sliceDrop lower 1)
    let v :=
      if List.IsSuffix (js "ies") lower ∧ lower.length > 4 then
        insertUniq v (sliceDrop lower 3 ++ js "y")
      else v
    if List.IsSuffix (js "es") lower ∧ lower.length > 3 then
      insertUniq v (sliceDrop lower 2)
    else v
  else
    let v := insertUniq v (lower ++ js "s")
    let v := insertUniq v (lower ++ js "es")
    if List.IsSuffix (js "y") lower ∧ lower.length > 2 then
      insertUniq v (sliceDrop lower 1 ++ js "ies")
    else v

/-- Verb-form additions of `expandSingleWord` (route.ts lines 709-721). -/
def verbStep (lower : JStr) (v : List JStr) : List JStr :=
  let v := if ¬ List.IsSuffix (js "ing") lower then insertUniq v (lower ++ js "ing") else v
  let v := if ¬ List.IsSuffix (js "ed") lower then insertUniq v (lower ++ js "ed") else v
  let v := if ¬ List.IsSuffix (js "er") lower then insertUniq v (lower ++ js "er") else v
  if ¬ List.IsSuffix (js "est") lower then insertUniq v (lower ++ js "est") else v

/-- Suffix list of route.ts line 724. -/
def strippableSuffixes : List JStr :=
  [js "ing", js "ed", js "er", js "est", js "ly", js "tion", js "sion", js "ness", js "ment"]

/-- Suffix-stripping additions of `expandSingleWord` (route.ts lines 723-729). -/
def suffixStep (lower : JStr) (v : List JStr) : List JStr :=
  strippableSuffixes.foldl
    (fun v suf =>
      if List.IsSuffix suf lower ∧ lower.length > suf.length + 2 then
        insertUniq v (sliceDrop lower suf.length)
      else v)
    v

/-- Synonym additions of `expandSingleWord` (route.ts lines 731-739). -/
def synonymStep (lower : JStr) (v : List JStr) : List JStr :=
  match lookupSynonyms CALL_CENTER_SYNONYMS lower with
  | some syns =>
    syns.foldl
      (fun v syn =>
        insertUniq (insertUniq (insertUniq v syn) (syn ++ js "s")) (syn ++ js "es"))
      v
  | none => v

/-- Hyphenated compound-word additions of `expandSingleWord` (route.ts
lines 741-751). -/
def hyphenStep (lower : JStr) (v : List JStr) : List JStr :=
  if '-' ∈ lower then
    let parts := splitChar '-' lower
    let v := parts.foldl
      (fun v part => if (jsTrim part).length > 1 then insertUniq v (jsTrim part) else v)
      v
    let v := insertUniq v (joinSep (js " ") parts)
    insertUniq v parts.flatten
  else v

/-- Shallow embedding of `expandSingleWord` (route.ts lines 677-754): the
lowercased trimmed word plus plural toggles, verb forms, stripped
suffixes, configured synonyms (with plural forms) and hyphen-compound
variants, with variants of length at most 1 filtered out. -/
def expandSingleWord (word : JStr) : List JStr :=
  let lower := jsTrim (toLowerJ word)
  (hyphenStep lower
      (synonymStep lower
        (suffixStep lower
          (verbStep lower
            (pluralStep lower (insertUniq [] lower)))))).filter
    (fun x => decide (x.length > 1))

/-- Shallow embedding of `expandKeyword` (route.ts lines 636-674): the
lowercased trimmed term; for multi-word phrases, each constituent word of
length above 2 expanded via `expandSingleWord` plus hyphenated,
concatenated and 2-word-window forms; for single words, `expandSingleWord`
directly; then variants of length at most 1 are filtered out. -/
def expandKeyword (keyword : JStr) : List JStr :=
  let lower := jsTrim (toLowerJ keyword)
  let v := insertUniq [] lower
  let v :=
    if ' ' ∈ lower then
      let words := (splitWs lower).filter (fun w => decide (w.length > 1))
      let v := words.foldl
        (fun v w => if w.length > 2 then addAll v (expandSingleWord w) else v) v
      let v := insertUniq v (joinSep (js "-") words)
      let v := insertUniq v words.flatten
      if words.length ≥ 3 then
        (List.range (words.length - 1)).foldl
          (fun v i => insertUniq v (joinSep (js " ") ((words.drop i).take 2))) v
      else v
    else addAll v (expandSingleWord lower)
  v.filter (fun x => decide (x.length > 1))

/-- Insertion-ordered set add always contains the added element. -/
theorem mem_insertUniq_self (l : List JStr) (x : JStr) : x ∈ insertUniq l x := by
  unfold insertUniq
  split
  · assumption
  · simp

/-- Insertion-ordered set add keeps existing elements. -/
theorem mem_insertUniq (l : List JStr) (x y : JStr) (h : x ∈ l) :
    x ∈ insertUniq l y := by
  unfold insertUniq
  split
  · exact h
  · exact List.mem_append_left _ h

/-- A fold whose step preserves membership preserves membership. -/
theorem mem_foldl_preserve {β : Type} (f : List JStr → β → List JStr)
    (l : List β) (x : JStr) (hf : ∀ acc b, x ∈ acc → x ∈ f acc b) :
    ∀ acc, x ∈ acc → x ∈ l.foldl f acc := by
  induction l with
  | nil => intro acc h; simpa using h
  | cons b bs ih => intro acc h; exact ih _ (hf _ _ h)

/-- Adding a batch of elements keeps existing elements. -/
theorem mem_addAll_left (acc xs : List JStr) (x : JStr) (h : x ∈ acc) :
    x ∈ addAll acc xs :=
  mem_foldl_preserve insertUniq xs x (fun a b hm => mem_insertUniq a x b hm) acc h

/-- Adding a batch of elements contains each of them. -/
theorem mem_addAll_right (acc xs : List JStr) (x : JStr) (h : x ∈ xs) :
    x ∈ addAll acc xs := by
  induction xs generalizing acc with
  | nil => cases h
  | cons b bs ih =>
    rcases List.mem_cons.mp h with rfl | h2
    · exact mem_foldl_preserve insertUniq bs x
        (fun a c hm => mem_insertUniq a x c hm) _ (mem_insertUniq_self acc x)
    · exact ih _ h2

/-- Membership is preserved by a conditional set add. -/
theorem mem_ite_insertUniq {c : Prop} [Decidable c] (v : List JStr)
    (x y : JStr) (h : x ∈ v) : x ∈ (if c then insertUniq v y else v) := by
  split
  · exact mem_insertUniq v x y h
  · exact h

/-- Membership is preserved by a conditional batch add. -/
theorem mem_ite_addAll {c : Prop} [Decidable c] (v xs : List JStr)
    (x : JStr) (h : x ∈ v) : x ∈ (if c then addAll v xs else v) := by
  split
  · exact mem_addAll_left v xs x h
  · exact h

/-- The plural/singular step keeps existing variants. -/
theorem pluralStep_pres (lower : JStr) (v : List JStr) (x : JStr) (h : x ∈ v) :
    x ∈ pluralStep lower v := by
  unfold pluralStep
  split
  · apply mem_ite_insertUniq
    apply mem_ite_insertUniq
    exact mem_insertUniq v x _ h
  · apply mem_ite_insertUniq
    apply mem_insertUniq
    exact mem_insertUniq v x _ h

/-- The verb-form step keeps existing variants. -/
theorem verbStep_pres (lower : JStr) (v : List JStr) (x : JStr) (h : x ∈ v) :
    x ∈ verbStep lower v := by
  unfold verbStep
  apply mem_ite_insertUniq
  apply mem_ite_insertUniq
  apply mem_ite_insertUniq
  exact mem_ite_insertUniq v x _ h

/-- The suffix-stripping step keeps existing variants. -/
theorem suffixStep_pres (lower : JStr) (v : List JStr) (x : JStr) (h : x ∈ v) :
    x ∈ suffixStep lower v := by
  unfold suffixStep
  apply mem_foldl_preserve _ _ x (fun acc suf hm => ?_) v h
  exact mem_ite_insertUniq acc x _ hm

/-- The synonym step keeps existing variants. -/
theorem synonymStep_pres (lower : JStr) (v : List JStr) (x : JStr) (h : x ∈ v) :
    x ∈ synonymStep lower v := by
  unfold synonymStep
  split
  · apply mem_foldl_preserve _ _ x (fun acc syn hm => ?_) v h
    apply mem_insertUniq
    apply mem_insertUniq
    exact mem_insertUniq acc x _ hm
  · exact h

/-- The hyphen-compound step keeps existing variants. -/
theorem hyphenStep_pres (lower : JStr) (v : List JStr) (x : JStr) (h : x ∈ v) :
    x ∈ hyphenStep lower v := by
  unfold hyphenStep
  split
  · apply mem_insertUniq
    apply mem_insertUniq
    apply mem_foldl_preserve _ _ x (fun acc part hm => ?_) v h
    exact mem_ite_insertUniq acc x _ hm
  · exact h

/-- The lowercased trimmed word survives into `expandSingleWord`'s output
whenever it passes the length filter. -/
theorem lower_mem_expandSingleWord (word : JStr)
    (h : (jsTrim (toLowerJ word)).length > 1) :
    jsTrim (toLowerJ word) ∈ expandSingleWord word := by
  unfold expandSingleWord
  apply List.mem_filter.mpr
  refine ⟨?_, by simpa using h⟩
  apply hyphenStep_pres
  apply synonymStep_pres
  apply suffixStep_pres
  apply verbStep_pres
  apply pluralStep_pres
  exact mem_insertUniq_self [] _

/-- Route.ts line 714: a word not already ending in `ed` gains the variant
`word ++ ed` from `expandSingleWord`. -/
theorem mem_expandSingleWord_ed (w : JStr) (hw : jsTrim (toLowerJ w) = w)
    (hed : ¬ List.IsSuffix (js "ed") w) : w ++ js "ed" ∈ expandSingleWord w := by
  unfold expandSingleWord
  rw [hw]
  apply List.mem_filter.mpr
  refine ⟨?_, by have h2 : (js "ed").length = 2 := rfl; simp [h2]⟩
  apply hyphenStep_pres
  apply synonymStep_pres
  apply suffixStep_pres
  unfold verbStep
  apply mem_ite_insertUniq
  apply mem_ite_insertUniq
  rw [if_pos hed]
  exact mem_insertUniq_self _ _

/-- Route.ts line 717: a word not already ending in `er` gains the variant
`word ++ er` from `expandSingleWord`. -/
theorem mem_expandSingleWord_er (w : JStr) (hw : jsTrim (toLowerJ w) = w)
    (her : ¬ List.IsSuffix (js "er") w) : w ++ js "er" ∈ expandSingleWord w := by
  unfold expandSingleWord
  rw [hw]
  apply List.mem_filter.mpr
  refine ⟨?_, by have h2 : (js "er").length = 2 := rfl; simp [h2]⟩
  apply hyphenStep_pres
  apply synonymStep_pres
  apply suffixStep_pres
  unfold verbStep
  apply mem_ite_insertUniq
  rw [if_pos her]
  exact mem_insertUniq_self _ _

/-- For a space-free term already in lowercased trimmed form, every
sufficiently long variant produced by `expandSingleWord` appears in
`expandKeyword`'s output. -/
theorem mem_expandKeyword_single (w x : JStr) (hw : jsTrim (toLowerJ w) = w)
    (hsp : ' ' ∉ w) (hx : x ∈ expandSingleWord w) (hlen : x.length > 1) :
    x ∈ expandKeyword w := by
  unfold expandKeyword
  rw [hw]
  apply List.mem_filter.mpr
  refine ⟨?_, by simpa using hlen⟩
  rw [if_neg hsp]
  exact mem_addAll_right _ _ x hx

/-- The lowercased trimmed term survives into `expandKeyword`'s output
whenever it passes the length filter. -/
theorem lower_mem_expandKeyword (t : JStr)
    (h : (jsTrim (toLowerJ t)).length > 1) :
    jsTrim (toLowerJ t) ∈ expandKeyword t := by
  unfold expandKeyword
  apply List.mem_filter.mpr
  refine ⟨?_, by simpa using h⟩
  dsimp only
  split
  · split
    · apply mem_foldl_preserve _ _ _ (fun acc i hm => mem_insertUniq acc _ _ hm)
      apply mem_insertUniq
      apply mem_insertUniq
      apply mem_foldl_preserve _ _ _ (fun acc w hm => mem_ite_addAll acc _ _ hm)
      exact mem_insertUniq_self [] _
    · apply mem_insertUniq
      apply mem_insertUniq
      apply mem_foldl_preserve _ _ _ (fun acc w hm => mem_ite_addAll acc _ _ hm)
      exact mem_insertUniq_self [] _
  · exact mem_addAll_left _ _ _ (mem_insertUniq_self [] _)

/-- C5 counterexample: the original term is added only after
`toLowerCase().trim()` (route.ts lines 638-641), so a capitalized term is
not an element of its own expansion — only its lowercased form is. -/
theorem C5_counterexample :
    js "Cat" ∉ expandKeyword (js "Cat") ∧ js "cat" ∈ expandKeyword (js "Cat") := by
  constructor
  · decide
  · decide

/-- C5 as amended: expansion is deterministic (a pure function of the
term); for every term the lowercased trimmed form of the term — and hence
the term itself when it is already lowercase and trimmed — is an element
of its expansion provided it is longer than one character; and every
variant of length at most 1 is excluded from the output. -/
theorem C5_expansion_superset (t : JStr) :
    ((jsTrim (toLowerJ t)).length > 1 → jsTrim (toLowerJ t) ∈ expandKeyword t) ∧
      (∀ v ∈ expandKeyword t, v.length > 1) ∧
      (jsTrim (toLowerJ t) = t → t.length > 1 → t ∈ expandKeyword t) := by
  refine ⟨fun h => lower_mem_expandKeyword t h, fun v hv => ?_, fun hfix hlen => ?_⟩
  · unfold expandKeyword at hv
    have := List.mem_filter.mp hv
    simpa using this.2
  · have := lower_mem_expandKeyword t (by rw [hfix]; exact hlen)
    rwa [hfix] at this

/-- Witness for C5 as amended at the concrete term `refund`. -/
theorem C5_witness : js "refund" ∈ expandKeyword (js "refund") := by
  have h := (C5_expansion_superset (js "refund")).2.2 (by decide) (by decide)
  exact h

/-- Chain of terms witnessing unbounded growth of repeated expansion:
starting from `cat`, alternately append `ed` and `er` (each appended form
is produced by `expandSingleWord` because the word does not already end in
that suffix). -/
def expChain : Nat → JStr
  | 0 => js "cat"
  | n + 1 => expChain n ++ (if n % 2 = 0 then js "ed" else js "er")

/-- Length of the chain grows by 2 at every step. -/
theorem expChain_length (n : Nat) : (expChain n).length = 3 + 2 * n := by
  induction n with
  | zero => rfl
  | succ n ih =>
    rw [expChain, List.length_append]
    split
    · have h2 : (js "ed").length = 2 := rfl
      omega
    · have h2 : (js "er").length = 2 := rfl
      omega

/-- Every character of a chain element is one of `c a t e d r`. -/
theorem expChain_chars (n : Nat) : ∀ c ∈ expChain n, c ∈ js "catedr" := by
  induction n with
  | zero =>
    intro c hc
    have h2 : c ∈ ['c', 'a', 't'] := hc
    simp only [List.mem_cons, List.not_mem_nil, or_false] at h2
    rcases h2 with rfl | rfl | rfl <;> decide
  | succ n ih =>
    intro c hc
    rw [expChain] at hc
    rcases List.mem_append.mp hc with h | h
    · exact ih c h
    · by_cases hp : n % 2 = 0
      · rw [if_pos hp] at h
        have h2 : c ∈ ['e', 'd'] := h
        simp only [List.mem_cons, List.not_mem_nil, or_false] at h2
        rcases h2 with rfl | rfl <;> decide
      · rw [if_neg hp] at h
        have h2 : c ∈ ['e', 'r'] := h
        simp only [List.mem_cons, List.not_mem_nil, or_false] at h2
        rcases h2 with rfl | rfl <;> decide

/-- The six chain characters are lowercase and not whitespace. -/
theorem goodChar_props (c : Char) (h : c ∈ js "catedr") :
    Char.toLower c = c ∧ isWsChar c = false := by
  have h2 : c ∈ ['c', 'a', 't', 'e', 'd', 'r'] := h
  simp only [List.mem_cons, List.not_mem_nil, or_false] at h2
  rcases h2 with rfl | rfl | rfl | rfl | rfl | rfl <;> exact ⟨by decide, by decide⟩

/-- Dropping a prefix satisfying a predicate no character satisfies is the
identity. -/
theorem dropWhile_eq_self_of_none (p : Char → Bool) (l : JStr)
    (h : ∀ c ∈ l, p c = false) : l.dropWhile p = l := by
  cases l with
  | nil => rfl
  | cons c rest =>
    have hc := h c (List.mem_cons_self c rest)
    rw [List.dropWhile_cons, if_neg (by simp [hc])]

/-- Trimming a string with no whitespace characters is the identity. -/
theorem jsTrim_eq_self (l : JStr) (h : ∀ c ∈ l, isWsChar c = false) :
    jsTrim l = l := by
  unfold jsTrim
  rw [dropWhile_eq_self_of_none _ _ h,
    dropWhile_eq_self_of_none _ _ (fun c hc => h c (List.mem_reverse.mp hc))]
  exact List.reverse_reverse l

/-- Lowercasing a string whose characters are each fixed by `toLower` is
the identity. -/
theorem toLowerJ_eq_self (l : JStr) (h : ∀ c ∈ l, Char.toLower c = c) :
    toLowerJ l = l := by
  unfold toLowerJ
  conv_rhs => rw [← List.map_id l]
  exact List.map_congr_left h

/-- Chain elements are fixed by `toLowerCase().trim()`. -/
theorem expChain_fixed (n : Nat) :
    jsTrim (toLowerJ (expChain n)) = expChain n := by
  rw [toLowerJ_eq_self _ (fun c hc => (goodChar_props c (expChain_chars n c hc)).1)]
  exact jsTrim_eq_self _ (fun c hc => (goodChar_props c (expChain_chars n c hc)).2)

/-- Chain elements contain no space. -/
theorem expChain_no_space (n : Nat) : ' ' ∉ expChain n := by
  intro h
  have h2 := expChain_chars n ' ' h
  exact absurd h2 (by decide)

/-- A string ending in `ed` does not end in `er`. -/
theorem not_suffix_er_append_ed (l : JStr) :
    ¬ List.IsSuffix (js "er") (l ++ js "ed") := by
  rintro ⟨t, ht⟩
  have h1 : (t ++ js "er").getLast? = some 'r' := by
    rw [show t ++ js "er" = (t ++ ['e']) ++ ['r'] from by rw [List.append_assoc]; rfl]
    exact List.getLast?_concat _
  have h2 : (l ++ js "ed").getLast? = some 'd' := by
    rw [show l ++ js "ed" = (l ++ ['e']) ++ ['d'] from by rw [List.append_assoc]; rfl]
    exact List.getLast?_concat _
  rw [ht] at h1
  rw [h1] at h2
  exact absurd h2 (by decide)

/-- A string ending in `er` does not end in `ed`. -/
theorem not_suffix_ed_append_er (l : JStr) :
    ¬ List.IsSuffix (js "ed") (l ++ js "er") := by
  rintro ⟨t, ht⟩
  have h1 : (t ++ js "ed").getLast? = some 'd' := by
    rw [show t ++ js "ed" = (t ++ ['e']) ++ ['d'] from by rw [List.append_assoc]; rfl]
    exact List.getLast?_concat _
  have h2 : (l ++ js "er").getLast? = some 'r' := by
    rw [show l ++ js "er" = (l ++ ['e']) ++ ['r'] from by rw [List.append_assoc]; rfl]
    exact List.getLast?_concat _
  rw [ht] at h1
  rw [h1] at h2
  exact absurd h2 (by decide)

/-- Chain elements never already end in the suffix about to be appended. -/
theorem expChain_suffix_free (n : Nat) :
    (n % 2 = 0 → ¬ List.IsSuffix (js "ed") (expChain n)) ∧
      (n % 2 = 1 → ¬ List.IsSuffix (js "er") (expChain n)) := by
  induction n with
  | zero =>
    constructor
    · intro _
      decide
    · intro h
      exact absurd h (by decide)
  | succ n ih =>
    by_cases hp : n % 2 = 0
    · constructor
      · intro h
        exact absurd h (by omega)
      · intro _
        rw [expChain, if_pos hp]
        exact not_suffix_er_append_ed _
    · constructor
      · intro _
        rw [expChain, if_neg hp]
        exact not_suffix_ed_append_er _
      · intro h
        exact absurd h (by omega)

/-- C6 counterexample: expanding a variant already in the expansion of
`cat` introduces a variant outside it — `cated` is in the expansion of
`cat` and `cateder` is in the expansion of `cated`, yet `cateder` is not
in the expansion of `cat` — so expansion of an expanded term is not a
subset of the original expansion. -/
theorem C6_counterexample :
    js "cated" ∈ expandKeyword (js "cat") ∧
      js "cateder" ∈ expandKeyword (js "cated") ∧
      js "cateder" ∉ expandKeyword (js "cat") := by
  exact ⟨by decide, by decide, by decide⟩

/-- C6 as amended: expansion of an already-expanded variant is not
confined to any bounded closure of the original term — repeated expansion
grows without bound. Concretely, the chain `expChain` starts at `cat`,
each element belongs to the expansion of the previous one, and the lengths
`3 + 2 * n` are unbounded. Each single application remains deterministic
and finite. -/
theorem C6_expansion_grows_unboundedly (n : Nat) :
    expChain (n + 1) ∈ expandKeyword (expChain n) ∧
      (expChain n).length = 3 + 2 * n := by
  refine ⟨?_, expChain_length n⟩
  by_cases hp : n % 2 = 0
  · rw [expChain, if_pos hp]
    exact mem_expandKeyword_single _ _ (expChain_fixed n) (expChain_no_space n)
      (mem_expandSingleWord_ed _ (expChain_fixed n) ((expChain_suffix_free n).1 hp))
      (by have h2 : (js "ed").length = 2 := rfl
          simp only [List.length_append, h2]
          omega)
  · have hp1 : n % 2 = 1 := by omega
    rw [expChain, if_neg hp]
    exact mem_expandKeyword_single _ _ (expChain_fixed n) (expChain_no_space n)
      (mem_expandSingleWord_er _ (expChain_fixed n) ((expChain_suffix_free n).2 hp1))
      (by have h2 : (js "er").length = 2 := rfl
          simp only [List.length_append, h2]
          omega)

/- ### Query classifier (route.ts lines 830-1007) -/

/-- Character class of JavaScript regex `\w` (ASCII). -/
def isWordChar (c : Char) : Bool := c.isAlphanum || c = '_'

/-- Whether `pat` is a prefix of `s`. -/
def startsWithJ : JStr → JStr → Bool
  | [], _ => true
  | _ :: _, [] => false
  | p :: ps, c :: cs => p = c && startsWithJ ps cs

/-- Find the first occurrence of `pat` in `s` and return the remainder
after it, or `none` when `pat` does not occur. -/
def findSubAfter (pat : JStr) : JStr → Option JStr
  | [] => if pat.isEmpty then some [] else none
  | c :: rest =>
    if startsWithJ pat (c :: rest) then some ((c :: rest).drop pat.length)
    else findSubAfter pat rest

/-- Substring containment, modelling JavaScript `includes`. -/
def hasSub (pat s : JStr) : Bool := (findSubAfter pat s).isSome

/-- Test of a regex of the shape `A.*B.*C` (each part a literal): the
parts occur in order, each after the end of the previous one. Finding each
part at its earliest occurrence is complete, since an earlier end leaves a
longer remainder. -/
def seqMatches : List JStr → JStr → Bool
  | [], _ => true
  | p :: ps, s =>
    match findSubAfter p s with
    | some rest => seqMatches ps rest
    | none => false

/-- Test of a regex of the shape `\b\w+\s+\w+\b.*target`: a maximal word
run, a nonempty whitespace run, a second word run, then `target` at or
after the end of the second run. Candidate starts are exactly the starts
of maximal word runs. -/
def twoWordsThenAux (target : JStr) : Nat → JStr → Bool
  | 0, _ => false
  | _ + 1, [] => false
  | fuel + 1, c :: rest =>
    if isWordChar c then
      (let afterW1 := rest.dropWhile isWordChar
       let afterWs := afterW1.dropWhile isWsChar
       !(afterW1.takeWhile isWsChar).isEmpty &&
         (match afterWs with
          | [] => false
          | d :: _ => isWordChar d && hasSub target (afterWs.dropWhile isWordChar))) ||
        twoWordsThenAux target fuel (rest.dropWhile isWordChar)
    else twoWordsThenAux target fuel rest

/-- Entry point for the two-words-then-target test. -/
def twoWordsThen (target s : JStr) : Bool := twoWordsThenAux target (s.length + 1) s

/-- The `keywordSearchPatterns` test (route.ts lines 838-857): each regex
is modelled by its literal-parts-in-order or two-words-then-target shape;
`calls?`, `records?`, `included?`, `mentioned?` reduce to their mandatory
stems since the optional letter is followed by `.*`. -/
def keywordSearchPatternsMatch (query : JStr) : Bool :=
  let lq := toLowerJ query
  seqMatches [js "how many", js "call", js "contain"] lq ||
  seqMatches [js "how many", js "call", js "mention"] lq ||
  seqMatches [js "how many", js "call", js "include"] lq ||
  seqMatches [js "how many", js "call", js "about"] lq ||
  seqMatches [js "count", js "call", js "contain"] lq ||
  seqMatches [js "count", js "call", js "mention"] lq ||
  seqMatches [js "count", js "call", js "with"] lq ||
  seqMatches [js "search", js "for"] lq ||
  seqMatches [js "find", js "call", js "with"] lq ||
  seqMatches [js "call", js "about"] lq ||
  seqMatches [js "call", js "regarding"] lq ||
  seqMatches [js "call", js "discussing"] lq ||
  seqMatches [js "\"", js "\""] query ||
  twoWordsThen (js "offer") lq ||
  twoWordsThen (js "issue") lq ||
  twoWordsThen (js "problem") lq

/-- The quoted spans matched by `query.match(/"([^"]+)"/g)`, each with its
surrounding quotes. -/
def quotedSpansAux : Nat → JStr → List JStr
  | 0, _ => []
  | _ + 1, [] => []
  | fuel + 1, c :: rest =>
    if c = '"' then
      let inner := rest.takeWhile (fun x => x != '"')
      match rest.dropWhile (fun x => x != '"') with
      | '"' :: rest2 =>
        if inner.isEmpty then quotedSpansAux fuel rest
        else ('"' :: inner ++ ['"']) :: quotedSpansAux fuel rest2
      | _ => quotedSpansAux fuel rest
    else quotedSpansAux fuel rest

/-- Entry point for quoted-span extraction. -/
def quotedSpans (s : JStr) : List JStr := quotedSpansAux (s.length + 1) s

/-- The removal `query.replace(/"[^"]+"/g, '')`. -/
def removeQuotedAux : Nat → JStr → JStr
  | 0, s => s
  | _ + 1, [] => []
  | fuel + 1, c :: rest =>
    if c = '"' then
      let inner := rest.takeWhile (fun x => x != '"')
      match rest.dropWhile (fun x => x != '"') with
      | '"' :: rest2 =>
        if inner.isEmpty then c :: removeQuotedAux fuel rest
        else removeQuotedAux fuel rest2
      | _ => c :: removeQuotedAux fuel rest
    else c :: removeQuotedAux fuel rest

/-- Entry point for quoted-span removal. -/
def removeQuoted (s : JStr) : JStr := removeQuotedAux (s.length + 1) s

/-- Ordered alternation of the stopword-removal regex at route.ts line 922.
Alternatives with an optional final letter (such as `calls?`) are listed
long form first, matching the greedy `?`. -/
def stopAlternatives : List (List JStr) :=
  [ [js "how many"], [js "count"], [js "find"], [js "search"], [js "show me"],
    [js "what"], [js "where"], [js "when"],
    [js "calls", js "call"], [js "records", js "record"],
    [js "included", js "include"], [js "contain"],
    [js "mentioned", js "mention"], [js "about"], [js "with"], [js "have"],
    [js "were"], [js "that"], [js "this"], [js "they"], [js "them"], [js "from"],
    [js "call"], [js "and"], [js "or"], [js "the"], [js "a"], [js "an"],
    [js "is"], [js "are"], [js "was"], [js "be"], [js "been"], [js "being"],
    [js "for"], [js "offer"], [js "offers"], [js "offered"] ]

/-- Match a single stopword variant at the current position, requiring a
word boundary after it; returns the remainder. -/
def matchVariant (v : JStr) (s : JStr) : Option JStr :=
  if startsWithJ v s then
    let r := s.drop v.length
    match r with
    | [] => some []
    | c :: _ => if isWordChar c then none else some r
  else none

/-- First matching variant of one alternative. -/
def firstVariant : List JStr → JStr → Option JStr
  | [], _ => none
  | v :: vs, s =>
    match matchVariant v s with
    | some r => some r
    | none => firstVariant vs s

/-- First matching alternative, in alternation order. -/
def firstAlternative : List (List JStr) → JStr → Option JStr
  | [], _ => none
  | alt :: alts, s =>
    match firstVariant alt s with
    | some r => some r
    | none => firstAlternative alts s

/-- Global word-boundary-anchored stopword removal over a lowercased
string; `boundary` records whether the previous character allows a match
to start here. Fuel-bounded (each step consumes at least one character, so
`length + 1` fuel always suffices). -/
def removeStopwords (fuel : Nat) (s : JStr) (boundary : Bool) : JStr :=
  match fuel, s with
  | 0, s => s
  | _ + 1, [] => []
  | fuel + 1, c :: rest =>
    if boundary then
      match firstAlternative stopAlternatives (c :: rest) with
      | some r => removeStopwords fuel r false
      | none => c :: removeStopwords fuel rest (!isWordChar c)
    else c :: removeStopwords fuel rest (!isWordChar c)

/-- Maximal `\w+` runs of a string. -/
def wordRunsAux : Nat → JStr → List JStr
  | 0, _ => []
  | _ + 1, [] => []
  | fuel + 1, c :: rest =>
    if isWordChar c then
      (c :: rest.takeWhile isWordChar) :: wordRunsAux fuel (rest.dropWhile isWordChar)
    else wordRunsAux fuel rest

/-- Entry point for maximal word-run extraction. -/
def wordRuns (s : JStr) : List JStr := wordRunsAux (s.length + 1) s

/-- Whole-word containment test `/\b(t1|t2|...)\b/i.test(s)` for all-letter
terms: some maximal word run of `s` equals one of the terms. -/
def containsWordAny (terms : List JStr) (s : JStr) : Bool :=
  (wordRuns s).any (fun r => decide (r ∈ terms))

/-- Short words admitted as search terms (route.ts lines 907, 980). -/
def shortWordAllowList : List JStr :=
  [js "fee", js "pay", js "buy", js "new", js "old", js "bad", js "mad",
    js "oil", js "gas", js "air"]

/-- Automotive vocabulary of the phrase promotion tests (route.ts lines
936, 957). -/
def automotiveTermList : List JStr :=
  [js "wheel", js "tire", js "brake", js "oil", js "engine", js "alignment",
    js "service", js "repair", js "quote", js "warranty", js "appointment",
    js "battery", js "transmission", js "filter", js "fluid"]

/-- Service vocabulary of the 2-word phrase promotion test (route.ts line
937). -/
def serviceTermList : List JStr :=
  [js "customer", js "billing", js "account", js "refund", js "cancel",
    js "support", js "help", js "delivery", js "payment", js "schedule"]

/-- Processing of one quoted phrase (route.ts lines 894-913). State is
`(keywords, processedTerms)`; `processedTerms` holds lowercased terms. -/
def processQuoted (state : List JStr × List JStr) (span : JStr) :
    List JStr × List JStr :=
  let cleaned := jsTrim (span.filter (fun x => x != '"'))
  if cleaned.length > 0 then
    let state1 := (state.1 ++ [cleaned], insertUniq state.2 (toLowerJ cleaned))
    let phraseWords := (splitWs cleaned).filter (fun w => decide (w.length > 2))
    phraseWords.foldl
      (fun st word =>
        let lowerWord := toLowerJ word
        if lowerWord ∉ st.2 ∧ (word.length > 3 ∨ lowerWord ∈ shortWordAllowList) then
          (st.1 ++ [word], st.2 ++ [lowerWord])
        else st)
      state1
  else state

/-- Promotion of a word into the keyword state if new and long enough
(route.ts lines 944-951, 963-971, 977-984 share this body, with the length
guard `> 2` for phrase constituents and `> 3` or the allow-list for
stand-alone words). -/
def addConstituentWord (st : List JStr × List JStr) (word : JStr) :
    List JStr × List JStr :=
  let lowerWord := toLowerJ word
  if lowerWord ∉ st.2 ∧ word.length > 2 then (st.1 ++ [word], st.2 ++ [lowerWord])
  else st

/-- One iteration of the 2- and 3-word phrase-window loop (route.ts lines
930-974). -/
def phraseWindowStep (words : List JStr) (st : List JStr × List JStr)
    (i : Nat) : List JStr × List JStr :=
  let pair := (words.drop i).take 2
  let phrase2 := joinSep (js " ") pair
  let st :=
    if phrase2.length > 5 ∧ toLowerJ phrase2 ∉ st.2 then
      if containsWordAny automotiveTermList phrase2 = true ∨
          containsWordAny serviceTermList phrase2 = true ∨
          (splitChar ' ' phrase2).all (fun w => decide (w.length > 4)) = true then
        pair.foldl addConstituentWord
          (st.1 ++ [phrase2], st.2 ++ [toLowerJ phrase2])
      else st
    else st
  let triple := (words.drop i).take 3
  let phrase3 := joinSep (js " ") triple
  if i < words.length - 2 ∧ phrase3.length > 10 ∧ phrase3.length < 30 ∧
      toLowerJ phrase3 ∉ st.2 then
    if containsWordAny automotiveTermList phrase3 = true then
      triple.foldl addConstituentWord
        (st.1 ++ [phrase3], st.2 ++ [toLowerJ phrase3])
    else st
  else st

/-- Promotion of a leftover stand-alone word (route.ts lines 977-984). -/
def singleWordStep (st : List JStr × List JStr) (word : JStr) :
    List JStr × List JStr :=
  let lowerWord := toLowerJ word
  if lowerWord ∉ st.2 ∧ (word.length > 3 ∨ lowerWord ∈ shortWordAllowList) then
    (st.1 ++ [word], st.2 ++ [lowerWord])
  else st

/-- Stable-sort order of the final prioritization (route.ts lines 990-1005):
terms inside a quoted span first, then word count descending, then length
descending. -/
def extractCmpLe (spans : List JStr) (a b : JStr) : Bool :=
  let qa := spans.any (fun p => hasSub a p)
  let qb := spans.any (fun p => hasSub b p)
  if qa ≠ qb then qa
  else
    let wa := (splitChar ' ' a).length
    let wb := (splitChar ' ' b).length
    if wa ≠ wb then decide (wb ≤ wa)
    else decide (b.length ≤ a.length)

/-- Shallow embedding of `extractKeywordsFromQuery` (route.ts lines
888-1007): quoted phrases (with their long-enough constituent words),
then, over the stopword-stripped remainder, promoted 2- and 3-word
phrases with their constituents, then leftover words; deduplicated,
priority-sorted and capped at 15. -/
def extractKeywordsFromQuery (query : JStr) : List JStr :=
  let spans := quotedSpans query
  let st0 := spans.foldl processQuoted ([], [])
  let cq1 := toLowerJ (removeQuoted query)
  let cq2 := removeStopwords (cq1.length + 1) cq1 true
  let cq3 := cq2.map (fun c => if !(isWordChar c) && !(isWsChar c) then ' ' else c)
  let cleanQuery := jsTrim cq3
  let words := (splitWs cleanQuery).filter (fun w => decide (w.length > 2))
  let st1 := (List.range (words.length - 1)).foldl (phraseWindowStep words) st0
  let st2 := words.foldl singleWordStep st1
  let uniqueKeywords := addAll [] st2.1
  (sortBy (extractCmpLe spans) uniqueKeywords).take 15

/-- Result of `detectQueryType` (route.ts lines 830-885). -/
structure QueryTypeResult where
  type : JStr
  isKeywordSearch : Bool
  extractedKeywords : List JStr
  deriving DecidableEq

/-- Shallow embedding of `detectQueryType` (route.ts lines 830-885):
keyword-search patterns first (extracting terms only in that case), then
the topic keyword dispatch on the lowercased question, with `general` as
fallback. -/
def detectQueryType (query : JStr) : QueryTypeResult :=
  let lowerQuery := toLowerJ query
  let isKeywordSearch := keywordSearchPatternsMatch query
  let extractedKeywords :=
    if isKeywordSearch then extractKeywordsFromQuery query else []
  let type :=
    if isKeywordSearch then js "keyword_search"
    else if hasSub (js "disposition") lowerQuery || hasSub (js "outcome") lowerQuery then
      js "disposition"
    else if hasSub (js "sentiment") lowerQuery || hasSub (js "satisfaction") lowerQuery then
      js "sentiment"
    else if hasSub (js "agent") lowerQuery || hasSub (js "performance") lowerQuery then
      js "agent_performance"
    else if hasSub (js "time") lowerQuery || hasSub (js "duration") lowerQuery then
      js "timing"
    else if hasSub (js "queue") lowerQuery || hasSub (js "department") lowerQuery then
      js "queue_analysis"
    else if hasSub (js "summary") lowerQuery || hasSub (js "overview") lowerQuery then
      js "summary"
    else if hasSub (js "trend") lowerQuery || hasSub (js "pattern") lowerQuery then
      js "trends"
    else js "general"
  ⟨type, isKeywordSearch, extractedKeywords⟩

/- ### Call records and the transcript search engine (route.ts 6-17,
815-825, 1010-1145) -/

/-- Call record as consumed by the route (route.ts lines 6-17): scalar
fields are optional strings (`undefined` as `none`), the heterogeneous
`any`-typed fields are JSON values with `jnull` standing for
null/undefined. -/
structure CallRecord where
  id : JStr
  agent_username : Option JStr
  queue_name : Option JStr
  disposition_title : Option JStr
  call_duration : JVal
  total_hold_time : JVal
  sentiment_analysis : JVal
  transcript_text : Option JStr
  initiation_timestamp : Option JStr

/-- JavaScript `x || 'Unknown'` on an optional string: `undefined` and the
empty string are falsy. -/
def jsOrUnknown : Option JStr → JStr
  | none => js "Unknown"
  | some s => if s.isEmpty then js "Unknown" else s

/-- JavaScript `String(v)` key coercion, used when a truthy `sentiment`
field is not a string. Integer numbers and primitives are rendered
faithfully; the placeholder renderings of non-integer numbers, arrays and
objects are never hit by any claim input. -/
def jvalToKey : JVal → JStr
  | .jstr s => s
  | .jbool true => js "true"
  | .jbool false => js "false"
  | .jnull => js "null"
  | .jnum q =>
    if q.den = 1 then
      (if q.num < 0 then ['-'] else []) ++ Nat.toDigits 10 q.num.natAbs
    else js "non-integer"
  | .jarr _ => js "array"
  | .jobj _ => js "object"

/-- Shallow embedding of `extractSentiment` (route.ts lines 815-825):
falsy input gives `Unknown`; a nonempty array contributes its first
element's truthy `sentiment` field; a string is returned as-is; an object
contributes its truthy `sentiment` field; everything else is `Unknown`. -/
def extractSentiment (v : JVal) : JStr :=
  if isFalsy v then js "Unknown"
  else
    match v with
    | .jarr (first :: _) =>
      match first with
      | .jobj fields =>
        match lookupField fields (js "sentiment") with
        | some s => if isFalsy s then js "Unknown" else jvalToKey s
        | none => js "Unknown"
      | _ => js "Unknown"
    | .jstr s => s
    | .jobj fields =>
      match lookupField fields (js "sentiment") with
      | some s => if isFalsy s then js "Unknown" else jvalToKey s
      | none => js "Unknown"
    | _ => js "Unknown"

/-- The transcript filter of route.ts lines 1030-1032:
`record.transcript_text && record.transcript_text.trim().length`. -/
def hasTranscript (r : CallRecord) : Bool :=
  match r.transcript_text with
  | none => false
  | some s => !s.isEmpty && !(jsTrim s).isEmpty

/-- Lookup in the `allExpandedTerms` map. -/
def lookupExpansion : List (JStr × List JStr) → JStr → Option (List JStr)
  | [], _ => none
  | p :: rest, k => if p.1 = k then some p.2 else lookupExpansion rest k

/-- Per-record matching loop of route.ts lines 1045-1099: for each original
term's variations, count matches and record which distinct variations
matched (in first-match order). The JavaScript regex match count
`(transcript.match(regexFor variation) || []).length` — whose regex is
built from the variation's shape (flexible phrase, exact short word, fuzzy
long word) — is abstracted as the `matchCount` parameter: every claim
about this function holds for an arbitrary matcher. Snippet strings are
presentation-only and not modelled (no claim mentions them). -/
def recordSearch (matchCount : JStr → JStr → Nat) (searchTerms : List JStr)
    (expanded : List (JStr × List JStr)) (transcript : JStr) :
    Nat × List JStr :=
  searchTerms.foldl
    (fun acc term =>
      let variations := (lookupExpansion expanded term).getD [term]
      variations.foldl
        (fun acc v =>
          let c := matchCount v transcript
          if c > 0 then
            (acc.1 + c, if v ∈ acc.2 then acc.2 else acc.2 ++ [v])
          else acc)
        acc)
    (0, [])

/-- Entry of `matchingRecords` (route.ts lines 1101-1113). -/
structure KeywordMatchRecord where
  id : JStr
  agent : JStr
  disposition : JStr
  sentiment : JStr
  duration : Rat
  matchCount : Nat
  matchedVariations : List JStr

/-- The `searchStats` object (route.ts lines 1129-1134). -/
structure SearchStats where
  totalRecordsSearched : Nat
  recordsWithTranscripts : Nat
  matchPercentage : Rat

/-- The `KeywordSearchResult` shape (route.ts lines 1124-1135). -/
structure KeywordSearchResult where
  totalMatches : Nat
  searchTerms : List JStr
  expandedTerms : List JStr
  matchingRecords : List KeywordMatchRecord
  searchStats : SearchStats

/-- One record's contribution to the accumulated
`(matchingRecords, totalMatches)` (route.ts lines 1039-1114): records with
a positive match count are appended, others are skipped. -/
def searchStep (matchCount : JStr → JStr → Nat) (searchTerms : List JStr)
    (expanded : List (JStr × List JStr))
    (acc : List KeywordMatchRecord × Nat) (r : CallRecord) :
    List KeywordMatchRecord × Nat :=
  let transcript := toLowerJ (r.transcript_text.getD [])
  let res := recordSearch matchCount searchTerms expanded transcript
  if res.1 > 0 then
    (acc.1 ++ [⟨r.id, jsOrUnknown r.agent_username, jsOrUnknown r.disposition_title,
        extractSentiment r.sentiment_analysis, extractNumericValue r.call_duration,
        res.1, res.2⟩],
      acc.2 + res.1)
  else acc

/-- Relevance order of route.ts lines 1117-1122: match count descending,
then distinct matched variations descending; used with a stable merge
sort, matching the stable JavaScript `Array.prototype.sort`. -/
def relevanceLe (a b : KeywordMatchRecord) : Bool :=
  if a.matchCount ≠ b.matchCount then decide (b.matchCount < a.matchCount)
  else decide (b.matchedVariations.length ≤ a.matchedVariations.length)

/-- Shallow embedding of `performKeywordSearch` (route.ts lines 1010-1145),
parametrized by the regex match-count primitive. Expands every term,
collects the distinct variation set, scans only records with a nonempty
trimmed transcript, accumulates matching records and total matches, sorts
by relevance, and reports the search statistics. -/
def performKeywordSearch (matchCount : JStr → JStr → Nat)
    (records : List CallRecord) (searchTerms : List JStr) :
    KeywordSearchResult :=
  let allExpandedTerms := searchTerms.map (fun t => (t, expandKeyword t))
  let allVariations := searchTerms.foldl (fun acc t => addAll acc (expandKeyword t)) []
  let recordsWithTranscripts := records.filter hasTranscript
  let scan := recordsWithTranscripts.foldl
    (searchStep matchCount searchTerms allExpandedTerms) ([], 0)
  let matchingRecords := sortBy relevanceLe scan.1
  ⟨scan.2, searchTerms, allVariations, matchingRecords,
    ⟨records.length, recordsWithTranscripts.length,
      if recordsWithTranscripts.length > 0 then
        ((matchingRecords.length : Rat) / (recordsWithTranscripts.length : Rat)) * 100
      else 0⟩⟩

/-- A fold whose step preserves a property preserves that property. -/
theorem foldl_preserve_prop {α β : Type} (P : α → Prop) (f : α → β → α)
    (hf : ∀ acc b, P acc → P (f acc b)) (l : List β) :
    ∀ acc, P acc → P (l.foldl f acc) := by
  induction l with
  | nil => intro acc h; simpa using h
  | cons b bs ih => intro acc h; exact ih _ (hf _ _ h)

/-- Records are appended to the match accumulator only with a positive
match count. -/
theorem searchStep_preserves_pos (mc : JStr → JStr → Nat) (terms : List JStr)
    (exps : List (JStr × List JStr)) (acc : List KeywordMatchRecord × Nat)
    (r : CallRecord) (h : ∀ m ∈ acc.1, 0 < m.matchCount) :
    ∀ m ∈ (searchStep mc terms exps acc r).1, 0 < m.matchCount := by
  intro m hm
  unfold searchStep at hm
  dsimp only at hm
  split at hm
  next hc =>
    rcases List.mem_append.mp hm with h1 | h2
    · exact h m h1
    · rw [List.mem_singleton] at h2
      subst h2
      exact hc
  next =>
    exact h m hm

/-- C4: for every record set, term list and matcher, `performKeywordSearch`
reports `recordsWithTranscripts ≤ len(R)` and
`totalRecordsSearched = len(R)`; `matchPercentage` equals
`matchingRecords / recordsWithTranscripts * 100` when
`recordsWithTranscripts > 0` and 0 otherwise; and every entry of
`matchingRecords` has a positive match count (zero-match records are
excluded while still counting toward `totalRecordsSearched`). -/
theorem C4_search_stats (mc : JStr → JStr → Nat) (records : List CallRecord)
    (terms : List JStr) :
    (performKeywordSearch mc records terms).searchStats.recordsWithTranscripts
        ≤ records.length ∧
      (performKeywordSearch mc records terms).searchStats.totalRecordsSearched
        = records.length ∧
      ((performKeywordSearch mc records terms).searchStats.recordsWithTranscripts > 0 →
        (performKeywordSearch mc records terms).searchStats.matchPercentage
          = ((performKeywordSearch mc records terms).matchingRecords.length : Rat)
              / ((performKeywordSearch mc records terms).searchStats.recordsWithTranscripts : Rat)
              * 100) ∧
      ((performKeywordSearch mc records terms).searchStats.recordsWithTranscripts = 0 →
        (performKeywordSearch mc records terms).searchStats.matchPercentage = 0) ∧
      (∀ m ∈ (performKeywordSearch mc records terms).matchingRecords,
        0 < m.matchCount) := by
  unfold performKeywordSearch
  dsimp only
  refine ⟨List.length_filter_le _ _, rfl, ?_, ?_, ?_⟩
  · intro h
    rw [if_pos h]
  · intro h
    rw [h]
    simp
  · intro m hm
    rw [mem_sortBy] at hm
    exact foldl_preserve_prop
      (fun acc : List KeywordMatchRecord × Nat => ∀ m ∈ acc.1, 0 < m.matchCount)
      (searchStep mc terms (terms.map fun t => (t, expandKeyword t)))
      (fun acc r ha => searchStep_preserves_pos mc terms _ acc r ha)
      (records.filter hasTranscript) ([], 0) (by simp) m hm

/-- Example matcher counting occurrences of the variation as a raw
substring, used only to instantiate witnesses at concrete inputs. -/
def countOccurrences (pat : JStr) : JStr → Nat
  | [] => 0
  | c :: rest =>
    (if startsWithJ pat (c :: rest) then 1 else 0) + countOccurrences pat rest

/-- Witness for C4 at a concrete input: two records, one with a transcript,
searched for `ab`. -/
theorem C4_witness :
    (performKeywordSearch countOccurrences
        [⟨js "1", some (js "alice"), none, some (js "Resolved"), .jnull, .jnull,
            .jnull, some (js "ab here"), none⟩,
          ⟨js "2", none, none, none, .jnull, .jnull, .jnull, none, none⟩]
        [js "ab"]).searchStats.recordsWithTranscripts ≤ 2 ∧
      (performKeywordSearch countOccurrences
        [⟨js "1", some (js "alice"), none, some (js "Resolved"), .jnull, .jnull,
            .jnull, some (js "ab here"), none⟩,
          ⟨js "2", none, none, none, .jnull, .jnull, .jnull, none, none⟩]
        [js "ab"]).searchStats.matchPercentage
        = ((performKeywordSearch countOccurrences
            [⟨js "1", some (js "alice"), none, some (js "Resolved"), .jnull, .jnull,
                .jnull, some (js "ab here"), none⟩,
              ⟨js "2", none, none, none, .jnull, .jnull, .jnull, none, none⟩]
            [js "ab"]).matchingRecords.length : Rat)
            / ((performKeywordSearch countOccurrences
                [⟨js "1", some (js "alice"), none, some (js "Resolved"), .jnull, .jnull,
                    .jnull, some (js "ab here"), none⟩,
                  ⟨js "2", none, none, none, .jnull, .jnull, .jnull, none, none⟩]
                [js "ab"]).searchStats.recordsWithTranscripts : Rat) * 100 := by
  have h := C4_search_stats countOccurrences
    [⟨js "1", some (js "alice"), none, some (js "Resolved"), .jnull, .jnull,
        .jnull, some (js "ab here"), none⟩,
      ⟨js "2", none, none, none, .jnull, .jnull, .jnull, none, none⟩]
    [js "ab"]
  exact ⟨by simpa using h.1, h.2.2.1 (by decide)⟩

/-- With an empty term list the per-record scan accumulates nothing. -/
theorem searchScan_empty_terms (mc : JStr → JStr → Nat) (l : List CallRecord) :
    l.foldl (searchStep mc [] []) ([], 0) = ([], 0) := by
  induction l with
  | nil => rfl
  | cons r rs ih =>
    rw [List.foldl_cons]
    have hstep : searchStep mc [] [] ([], 0) r = ([], 0) := rfl
    rw [hstep, ih]

/-- C9: a question matching a keyword-search pattern but yielding no
extractable terms is still classified as a keyword search with an empty
term list, and `performKeywordSearch` on any record set with an empty term
list does not error: it returns zero total matches and an empty matching
list. -/
theorem C9_empty_terms_handled (q : JStr) (mc : JStr → JStr → Nat)
    (records : List CallRecord)
    (hmatch : keywordSearchPatternsMatch q = true)
    (hempty : extractKeywordsFromQuery q = []) :
    (detectQueryType q).isKeywordSearch = true ∧
      (detectQueryType q).extractedKeywords = [] ∧
      (detectQueryType q).type = js "keyword_search" ∧
      (performKeywordSearch mc records []).totalMatches = 0 ∧
      (performKeywordSearch mc records []).matchingRecords = [] := by
  have hscan := searchScan_empty_terms mc (records.filter hasTranscript)
  refine ⟨?_, ?_, ?_, ?_, ?_⟩
  · simp [detectQueryType, hmatch]
  · simp [detectQueryType, hmatch, hempty]
  · simp [detectQueryType, hmatch]
  · unfold performKeywordSearch
    simp only [List.map_nil]
    rw [hscan]
  · unfold performKeywordSearch
    simp only [List.map_nil]
    rw [hscan]
    rfl

/-- Witness for C9 at the concrete question `search for` (matches the
pattern `search.*for` while stopword stripping leaves no terms) and a
one-record set. -/
theorem C9_witness :
    (detectQueryType (js "search for")).isKeywordSearch = true ∧
      (detectQueryType (js "search for")).extractedKeywords = [] ∧
      (performKeywordSearch countOccurrences
          [⟨js "1", none, none, none, .jnull, .jnull, .jnull,
              some (js "hello world"), none⟩] []).totalMatches = 0 := by
  have h := C9_empty_terms_handled (js "search for") countOccurrences
    [⟨js "1", none, none, none, .jnull, .jnull, .jnull,
        some (js "hello world"), none⟩]
    (by decide) (by decide)
  exact ⟨h.1, h.2.1, h.2.2.2.1⟩

/- ### Metrics aggregator (route.ts lines 1282-1423) -/

/-- Tally map `m[k] = (m[k] || 0) + 1` on an insertion-ordered association
list, as JavaScript plain objects with string keys behave. -/
def tallyAdd {α : Type} [DecidableEq α] : List (α × Nat) → α → List (α × Nat)
  | [], k => [(k, 1)]
  | p :: rest, k =>
    if p.1 = k then (p.1, p.2 + 1) :: rest else p :: tallyAdd rest k

/-- Total of a tally map. -/
def sumTally {α : Type} (m : List (α × Nat)) : Nat := (m.map (fun p => p.2)).sum

/-- Tally lookup `m[k] || 0`. -/
def lookupCount : List (JStr × Nat) → JStr → Nat
  | [], _ => 0
  | p :: rest, k => if p.1 = k then p.2 else lookupCount rest k

/-- Per-agent accumulator (route.ts lines 1313-1326). -/
structure AgentAcc where
  totalCalls : Nat
  totalDuration : Rat
  totalHoldTime : Rat
  dispositions : List (JStr × Nat)
  sentiments : List (JStr × Nat)

/-- Per-queue accumulator (route.ts lines 1329-1340). -/
structure QueueAcc where
  totalCalls : Nat
  totalDuration : Rat
  totalWaitTime : Rat
  dispositions : List (JStr × Nat)

/-- Update of `agentStats[agent]` for one record: initialize on first
sight, then increment (route.ts lines 1312-1326). -/
def agentUpsert : List (JStr × AgentAcc) → JStr → Rat → Rat → JStr → JStr →
    List (JStr × AgentAcc)
  | [], agent, duration, holdTime, disposition, sentiment =>
    [(agent, ⟨1, duration, holdTime, [(disposition, 1)], [(sentiment, 1)]⟩)]
  | p :: rest, agent, duration, holdTime, disposition, sentiment =>
    if p.1 = agent then
      (p.1, ⟨p.2.totalCalls + 1, p.2.totalDuration + duration,
        p.2.totalHoldTime + holdTime,
        tallyAdd p.2.dispositions disposition,
        tallyAdd p.2.sentiments sentiment⟩) :: rest
    else p :: agentUpsert rest agent duration holdTime disposition sentiment

/-- Update of `queueStats[queue]` for one record (route.ts lines
1328-1340). -/
def queueUpsert : List (JStr × QueueAcc) → JStr → Rat → Rat → JStr →
    List (JStr × QueueAcc)
  | [], queue, duration, holdTime, disposition =>
    [(queue, ⟨1, duration, holdTime, [(disposition, 1)]⟩)]
  | p :: rest, queue, duration, holdTime, disposition =>
    if p.1 = queue then
      (p.1, ⟨p.2.totalCalls + 1, p.2.totalDuration + duration,
        p.2.totalWaitTime + holdTime,
        tallyAdd p.2.dispositions disposition⟩) :: rest
    else p :: queueUpsert rest queue duration holdTime disposition

/-- Accumulator of the single pass over the record set (route.ts lines
1283-1294). -/
structure PreAcc where
  totalDuration : Rat
  totalHoldTime : Rat
  callsOver15Min : Nat
  callsUnder2Min : Nat
  dispositions : List (JStr × Nat)
  sentiments : List (JStr × Nat)
  agentStats : List (JStr × AgentAcc)
  queueStats : List (JStr × QueueAcc)
  hourly : List (Nat × Nat)
  daily : List (JStr × Nat)

/-- One record's contribution to the pass (route.ts lines 1296-1350). The
timezone-dependent `new Date(ts).getHours()` and `toDateString()` are
passed in as oracles `getHours` and `toDateString`. -/
def preStep (getHours : JStr → Nat) (toDateString : JStr → JStr)
    (acc : PreAcc) (record : CallRecord) : PreAcc :=
  let duration := extractNumericValue record.call_duration
  let holdTime := extractNumericValue record.total_hold_time
  let disposition := jsOrUnknown record.disposition_title
  let sentiment := extractSentiment record.sentiment_analysis
  let agent := jsOrUnknown record.agent_username
  let queue := jsOrUnknown record.queue_name
  let withTime :=
    match record.initiation_timestamp with
    | some ts =>
      if ts.isEmpty then (acc.hourly, acc.daily)
      else (tallyAdd acc.hourly (getHours ts), tallyAdd acc.daily (toDateString ts))
    | none => (acc.hourly, acc.daily)
  ⟨acc.totalDuration + duration,
    acc.totalHoldTime + holdTime,
    acc.callsOver15Min + (if duration > 900 then 1 else 0),
    acc.callsUnder2Min + (if duration < 120 then 1 else 0),
    tallyAdd acc.dispositions disposition,
    tallyAdd acc.sentiments sentiment,
    agentUpsert acc.agentStats agent duration holdTime disposition sentiment,
    queueUpsert acc.queueStats queue duration holdTime disposition,
    withTime.1, withTime.2⟩

/-- Count/percentage entry of the disposition and sentiment breakdowns. -/
structure DispEntry where
  count : Nat
  percentage : Rat
  deriving DecidableEq

/-- Final per-agent metrics (route.ts lines 1368-1387). -/
structure AgentMetrics where
  totalCalls : Nat
  avgDuration : Rat
  avgHoldTime : Rat
  topDispositions : List JStr
  sentimentScore : Rat

/-- Final per-queue metrics (route.ts lines 1389-1402). -/
structure QueueMetrics where
  totalCalls : Nat
  avgDuration : Rat
  avgWaitTime : Rat
  topDispositions : List JStr

/-- Hourly/daily histograms (route.ts lines 1412-1415); hour keys are kept
as numbers. -/
structure TimePatterns where
  hourlyDistribution : List (Nat × Nat)
  dailyTrends : List (JStr × Nat)

/-- Threshold counters (route.ts lines 1416-1421). -/
structure PerformanceIndicators where
  callsOver15Min : Nat
  callsUnder2Min : Nat
  abandonmentRate : Rat
  firstCallResolution : Rat

/-- The `ProcessedMetrics` shape (route.ts lines 19-48). -/
structure ProcessedMetrics where
  totalCalls : Nat
  avgCallDuration : Rat
  avgHoldTime : Rat
  dispositionBreakdown : List (JStr × DispEntry)
  sentimentBreakdown : List (JStr × DispEntry)
  agentMetrics : List (JStr × AgentMetrics)
  queueMetrics : List (JStr × QueueMetrics)
  timePatterns : TimePatterns
  performanceIndicators : PerformanceIndicators

/-- Top-3 dispositions of a tally, by count descending (route.ts lines
1370-1373). -/
def topDispositions (m : List (JStr × Nat)) : List JStr :=
  ((sortBy (fun a b => decide (b.2 ≤ a.2)) m).take 3).map (fun p => p.1)

/-- Shallow embedding of `preprocessCallData` (route.ts lines 1282-1423):
one pass accumulating totals, threshold counters and tallies, then
percentages and per-group averages computed against the total (guarding
division by zero to 0). -/
def preprocessCallData (getHours : JStr → Nat) (toDateString : JStr → JStr)
    (records : List CallRecord) : ProcessedMetrics :=
  let totalCalls := records.length
  let acc := records.foldl (preStep getHours toDateString)
    ⟨0, 0, 0, 0, [], [], [], [], [], []⟩
  ⟨totalCalls,
    (if totalCalls > 0 then acc.totalDuration / (totalCalls : Rat) else 0),
    (if totalCalls > 0 then acc.totalHoldTime / (totalCalls : Rat) else 0),
    acc.dispositions.map
      (fun p => (p.1, ⟨p.2, (p.2 : Rat) / (totalCalls : Rat) * 100⟩)),
    acc.sentiments.map
      (fun p => (p.1, ⟨p.2, (p.2 : Rat) / (totalCalls : Rat) * 100⟩)),
    acc.agentStats.map
      (fun p =>
        let stats := p.2
        let positiveCount := lookupCount stats.sentiments (js "Positive")
        let negativeCount := lookupCount stats.sentiments (js "Negative")
        (p.1,
          ⟨stats.totalCalls,
            (if stats.totalCalls > 0 then
              stats.totalDuration / (stats.totalCalls : Rat) else 0),
            (if stats.totalCalls > 0 then
              stats.totalHoldTime / (stats.totalCalls : Rat) else 0),
            topDispositions stats.dispositions,
            (if stats.totalCalls > 0 then
              ((positiveCount : Rat) - (negativeCount : Rat))
                / (stats.totalCalls : Rat) * 100 else 0)⟩)),
    acc.queueStats.map
      (fun p =>
        let stats := p.2
        (p.1,
          ⟨stats.totalCalls,
            (if stats.totalCalls > 0 then
              stats.totalDuration / (stats.totalCalls : Rat) else 0),
            (if stats.totalCalls > 0 then
              stats.totalWaitTime / (stats.totalCalls : Rat) else 0),
            topDispositions stats.dispositions⟩)),
    ⟨acc.hourly, acc.daily⟩,
    ⟨acc.callsOver15Min, acc.callsUnder2Min, 0, 0⟩⟩

/-- One tally increment raises the total by exactly one. -/
theorem sumTally_tallyAdd {α : Type} [DecidableEq α] (m : List (α × Nat)) (k : α) :
    sumTally (tallyAdd m k) = sumTally m + 1 := by
  induction m with
  | nil => rfl
  | cons p rest ih =>
    unfold tallyAdd
    split
    · simp only [sumTally, List.map_cons, List.sum_cons]
      omega
    · simp only [sumTally, List.map_cons, List.sum_cons] at ih ⊢
      omega

/-- The disposition tally after the pass counts every processed record. -/
theorem dispositions_sum_foldl (gh : JStr → Nat) (td : JStr → JStr) :
    ∀ (records : List CallRecord) (acc : PreAcc),
      sumTally ((records.foldl (preStep gh td) acc).dispositions)
        = sumTally acc.dispositions + records.length := by
  intro records
  induction records with
  | nil => intro acc; simp
  | cons r rs ih =>
    intro acc
    rw [List.foldl_cons, ih]
    have hstep : (preStep gh td acc r).dispositions
        = tallyAdd acc.dispositions (jsOrUnknown r.disposition_title) := rfl
    rw [hstep, sumTally_tallyAdd, List.length_cons]
    omega

/-- Percentages over a tally sum to the tally total scaled by `100 / T`. -/
theorem sum_map_percentage (l : List (JStr × Nat)) (T : Rat) :
    (l.map (fun p => (p.2 : Rat) / T * 100)).sum = (sumTally l : Rat) / T * 100 := by
  induction l with
  | nil => simp [sumTally]
  | cons p rest ih =>
    simp only [List.map_cons, List.sum_cons, ih, sumTally] at ih ⊢
    push_cast
    ring

/-- The incremented key is present after a tally increment. -/
theorem tallyAdd_hasKey_self {α : Type} [DecidableEq α] (m : List (α × Nat)) (k : α) :
    ∃ p ∈ tallyAdd m k, p.1 = k := by
  induction m with
  | nil =>
    refine ⟨(k, 1), ?_, rfl⟩
    simp [tallyAdd]
  | cons p rest ih =>
    unfold tallyAdd
    split
    · next h => exact ⟨(p.1, p.2 + 1), by simp, h⟩
    · obtain ⟨q, hq, hqk⟩ := ih
      exact ⟨q, by simp [hq], hqk⟩

/-- Present keys survive a tally increment of any key. -/
theorem tallyAdd_hasKey_mono {α : Type} [DecidableEq α] (m : List (α × Nat))
    (k k' : α) (h : ∃ p ∈ m, p.1 = k) : ∃ p ∈ tallyAdd m k', p.1 = k := by
  induction m with
  | nil =>
    rcases h with ⟨p, hp, _⟩
    cases hp
  | cons q rest ih =>
    rcases h with ⟨p, hp, hpk⟩
    unfold tallyAdd
    split
    · rcases List.mem_cons.mp hp with rfl | hmem
      · exact ⟨(p.1, p.2 + 1), by simp, hpk⟩
      · exact ⟨p, by simp [hmem], hpk⟩
    · rcases List.mem_cons.mp hp with rfl | hmem
      · exact ⟨p, by simp, hpk⟩
      · obtain ⟨r, hr, hrk⟩ := ih ⟨p, hmem, hpk⟩
        exact ⟨r, by simp [hr], hrk⟩

/-- A disposition key present in the accumulator stays present through the
rest of the pass. -/
theorem dispositions_key_mono_foldl (gh : JStr → Nat) (td : JStr → JStr)
    (l : List CallRecord) (k : JStr) :
    ∀ acc : PreAcc, (∃ p ∈ acc.dispositions, p.1 = k) →
      ∃ p ∈ ((l.foldl (preStep gh td) acc).dispositions), p.1 = k := by
  induction l with
  | nil => intro acc h; simpa using h
  | cons x xs ih =>
    intro acc h
    rw [List.foldl_cons]
    apply ih
    have hstep : (preStep gh td acc x).dispositions
        = tallyAdd acc.dispositions (jsOrUnknown x.disposition_title) := rfl
    rw [hstep]
    exact tallyAdd_hasKey_mono _ _ _ h

/-- Every processed record's (defaulted) disposition key appears in the
final tally. -/
theorem dispositions_key_foldl (gh : JStr → Nat) (td : JStr → JStr) :
    ∀ (records : List CallRecord) (acc : PreAcc) (r : CallRecord), r ∈ records →
      ∃ p ∈ ((records.foldl (preStep gh td) acc).dispositions),
        p.1 = jsOrUnknown r.disposition_title := by
  intro records
  induction records with
  | nil => intro acc r hr; cases hr
  | cons x xs ih =>
    intro acc r hr
    rw [List.foldl_cons]
    rcases List.mem_cons.mp hr with rfl | hmem
    · apply dispositions_key_mono_foldl
      have hstep : (preStep gh td acc r).dispositions
          = tallyAdd acc.dispositions (jsOrUnknown r.disposition_title) := rfl
      rw [hstep]
      exact tallyAdd_hasKey_self _ _
    · exact ih _ r hmem

/-- Lookup in the final breakdown object. -/
def lookupBreakdown : List (JStr × DispEntry) → JStr → Option DispEntry
  | [], _ => none
  | p :: rest, k => if p.1 = k then some p.2 else lookupBreakdown rest k

/-- A breakdown lookup succeeds for every present key. -/
theorem lookupBreakdown_isSome (l : List (JStr × DispEntry)) (k : JStr)
    (h : ∃ p ∈ l, p.1 = k) : (lookupBreakdown l k).isSome = true := by
  induction l with
  | nil =>
    rcases h with ⟨p, hp, _⟩
    cases hp
  | cons q rest ih =>
    unfold lookupBreakdown
    split
    · rfl
    · next hne =>
      rcases h with ⟨p, hp, hpk⟩
      rcases List.mem_cons.mp hp with rfl | hmem
      · exact absurd hpk hne
      · exact ih ⟨p, hmem, hpk⟩

/-- Scenario record set of the claim: 10 records, 6 `Resolved` and 4
`Escalated`. -/
def scenarioRecords : List CallRecord :=
  [⟨js "1", none, none, some (js "Resolved"), .jnull, .jnull, .jnull, none, none⟩,
    ⟨js "2", none, none, some (js "Resolved"), .jnull, .jnull, .jnull, none, none⟩,
    ⟨js "3", none, none, some (js "Resolved"), .jnull, .jnull, .jnull, none, none⟩,
    ⟨js "4", none, none, some (js "Resolved"), .jnull, .jnull, .jnull, none, none⟩,
    ⟨js "5", none, none, some (js "Resolved"), .jnull, .jnull, .jnull, none, none⟩,
    ⟨js "6", none, none, some (js "Resolved"), .jnull, .jnull, .jnull, none, none⟩,
    ⟨js "7", none, none, some (js "Escalated"), .jnull, .jnull, .jnull, none, none⟩,
    ⟨js "8", none, none, some (js "Escalated"), .jnull, .jnull, .jnull, none, none⟩,
    ⟨js "9", none, none, some (js "Escalated"), .jnull, .jnull, .jnull, none, none⟩,
    ⟨js "10", none, none, some (js "Escalated"), .jnull, .jnull, .jnull, none, none⟩]

/-- C7: for every record set, the per-disposition counts of
`preprocessCallData` sum to the total record count (every record lands in
exactly one bucket, defaulting to `Unknown`, whose key is present in the
breakdown), the per-disposition percentages sum to exactly 100 when the
total is positive (exact rational arithmetic subsumes the floating
tolerance), and the 6-of-10 `Resolved` scenario yields
`{count: 6, percentage: 60}`. -/
theorem C7_disposition_aggregation :
    (∀ (gh : JStr → Nat) (td : JStr → JStr) (records : List CallRecord),
      (((preprocessCallData gh td records).dispositionBreakdown.map
          (fun p => p.2.count)).sum = records.length) ∧
      (0 < records.length →
        ((preprocessCallData gh td records).dispositionBreakdown.map
            (fun p => p.2.percentage)).sum = 100) ∧
      (∀ r ∈ records,
        (lookupBreakdown (preprocessCallData gh td records).dispositionBreakdown
            (jsOrUnknown r.disposition_title)).isSome = true)) ∧
    lookupBreakdown
        ((preprocessCallData (fun _ => 0) (fun _ => js "")
            scenarioRecords).dispositionBreakdown) (js "Resolved")
      = some ⟨6, 60⟩ := by
  constructor
  · intro gh td records
    have hsum := dispositions_sum_foldl gh td records ⟨0, 0, 0, 0, [], [], [], [], [], []⟩
    refine ⟨?_, ?_, ?_⟩
    · unfold preprocessCallData
      dsimp only
      rw [List.map_map]
      simpa [sumTally, Function.comp] using hsum
    · intro hpos
      unfold preprocessCallData
      dsimp only
      rw [List.map_map]
      have hcomp :
          ((fun p : JStr × DispEntry => p.2.percentage) ∘
            (fun p : JStr × Nat =>
              (p.1, (⟨p.2, (p.2 : Rat) / (records.length : Rat) * 100⟩ : DispEntry))))
          = fun p : JStr × Nat => (p.2 : Rat) / (records.length : Rat) * 100 := rfl
      rw [hcomp, sum_map_percentage]
      have hT : sumTally ((records.foldl (preStep gh td)
          ⟨0, 0, 0, 0, [], [], [], [], [], []⟩).dispositions) = records.length := by
        simpa [sumTally] using hsum
      rw [hT]
      have hne : ((records.length : Nat) : Rat) ≠ 0 := by
        exact_mod_cast Nat.pos_iff_ne_zero.mp hpos
      rw [div_self hne, one_mul]
    · intro r hr
      have hkey := dispositions_key_foldl gh td records
        ⟨0, 0, 0, 0, [], [], [], [], [], []⟩ r hr
      obtain ⟨p, hp, hpk⟩ := hkey
      apply lookupBreakdown_isSome
      refine ⟨(p.1, ⟨p.2, (p.2 : Rat) / (records.length : Rat) * 100⟩), ?_, hpk⟩
      unfold preprocessCallData
      dsimp only
      exact List.mem_map_of_mem _ hp
  · have hacc : ((scenarioRecords.foldl
        (preStep (fun _ => 0) (fun _ => js ""))
        ⟨0, 0, 0, 0, [], [], [], [], [], []⟩).dispositions)
        = [(js "Resolved", 6), (js "Escalated", 4)] := by decide
    have hlen : scenarioRecords.length = 10 := rfl
    unfold preprocessCallData
    dsimp only
    rw [hacc, hlen]
    simp only [List.map_cons, List.map_nil, lookupBreakdown, if_true]
    norm_num

/-- Witness for C7 at the 10-record scenario: the disposition percentages
sum to exactly 100. -/
theorem C7_witness :
    ((preprocessCallData (fun _ => 0) (fun _ => js "")
        scenarioRecords).dispositionBreakdown.map
        (fun p => p.2.percentage)).sum = 100 :=
  (C7_disposition_aggregation.1 (fun _ => 0) (fun _ => js "")
    scenarioRecords).2.1 (by decide)

end PrismMyCar
